import Mathlib

/-!
Verification of the CSS generation core of the figma-css-exporter repository
(src/common/generateCSS.ts), as a shallow embedding in Lean 4.

Modelling conventions:
* JavaScript strings are modelled as lists of characters (`Str := List Char`).
  Character-class tests mirror the ASCII semantics of the regexes used in the
  source; `toLowerCase`/`toUpperCase` are modelled on the ASCII range (the
  source only ever feeds identifiers and CSS keywords through them).
* JavaScript numbers are modelled as exact fractions (`JsNum`, an integer
  numerator with a natural denominator).  `Math.round` is floor(x + 1/2),
  which is exactly JS `Math.round` semantics on real values.  The model
  covers finite numbers with terminating decimal expansions, which is every
  numeric value the generator manipulates.
* JavaScript `Map` objects are association lists with in-place update
  (`mapSet` keeps the original insertion position of an existing key, as a
  JS Map does); plain objects used as records are also association lists in
  insertion order.
* `undefined` is modelled by `Option`; JS truthiness checks are spelled out
  at each use site.
* The wall-clock timestamp read by the header builder is passed in as an
  explicit parameter `now`, so that generation is a pure function of
  (payload, options, clock reading).
-/

/-! ## Strings as character lists -/

abbrev Str := List Char

/-- JS Map lookup: `map.get(k)`. -/
def mapGet {α : Type} (m : List (Str × α)) (k : Str) : Option α :=
  match m with
  | [] => none
  | (k', v) :: rest => if k' = k then some v else mapGet rest k

/-- JS Map update: `map.set(k, v)` keeps the insertion position of an
existing key and appends a new key at the end. -/
def mapSet {α : Type} (m : List (Str × α)) (k : Str) (v : α) : List (Str × α) :=
  match m with
  | [] => [(k, v)]
  | (k', v') :: rest => if k' = k then (k, v) :: rest else (k', v') :: mapSet rest k v

/-- JS Map membership: `map.has(k)`. -/
def mapHas {α : Type} (m : List (Str × α)) (k : Str) : Bool :=
  (mapGet m k).isSome

/-- JS Set membership over a list of strings. -/
def setHas (s : List Str) (k : Str) : Bool :=
  s.contains k

/-- JS Set insertion (`set.add`): appends only if absent. -/
def setAdd (s : List Str) (k : Str) : List Str :=
  if setHas s k then s else s ++ [k]

/-! ## Character classes (ASCII semantics of the source's regexes) -/

/-- The whitespace class of the regexes (ASCII part of JS `\s`): space,
tab, newline, carriage return, vertical tab, form feed, by code point. -/
def jsIsSpace (c : Char) : Bool :=
  c.toNat = 32 || c.toNat = 9 || c.toNat = 10 || c.toNat = 13 || c.toNat = 11 || c.toNat = 12

/-- Character class of the regex `[\/\s]` (47 is the slash). -/
def isSlashOrSpace (c : Char) : Bool :=
  c.toNat = 47 || jsIsSpace c

/-- Character class of the regex `[A-Z]` (code points 65-90). -/
def jsIsUpper (c : Char) : Bool :=
  65 ≤ c.toNat && c.toNat ≤ 90

/-- Character class of the regex `[a-z]` (code points 97-122). -/
def jsIsLower (c : Char) : Bool :=
  97 ≤ c.toNat && c.toNat ≤ 122

/-- Character class of the regex `[0-9]` (code points 48-57). -/
def jsIsDigit (c : Char) : Bool :=
  48 ≤ c.toNat && c.toNat ≤ 57

/-- Complement of the character class `[A-Za-z0-9_-]` (used by the
permissive identifier mode; 95 is the underscore, 45 the hyphen). -/
def notCssWordChar (c : Char) : Bool :=
  !(jsIsUpper c || jsIsLower c || jsIsDigit c || c.toNat = 95 || c.toNat = 45)

/-- Character class of the regex `[\s_-]` (weight-key normalization). -/
def isSpaceUnderscoreDash (c : Char) : Bool :=
  jsIsSpace c || c.toNat = 95 || c.toNat = 45

/-- ASCII `toLowerCase` of a single character (model of JS
`String.prototype.toLowerCase` on the inputs the generator handles). -/
def jsToLower (c : Char) : Char :=
  if jsIsUpper c then Char.ofNat (c.toNat + 32) else c

/-- ASCII `toUpperCase` of a single character. -/
def jsToUpper (c : Char) : Char :=
  if jsIsLower c then Char.ofNat (c.toNat - 32) else c

/-- `s.toLowerCase()`. -/
def toLowerStr (s : Str) : Str := s.map jsToLower

/-- `s.toUpperCase()`. -/
def toUpperStr (s : Str) : Str := s.map jsToUpper

/-! ## Regex-replacement primitives used by the identifier derivers -/

/-- Global replacement of every maximal run of characters satisfying `p`
with a single hyphen: models `.replace(/X+/g, "-")` for the character class
`X = p`.  The boolean flag records whether the previous character was part
of a run. -/
def replaceRuns (p : Char → Bool) : Str → Bool → Str
  | [], _ => []
  | c :: rest, inRun =>
    if p c then
      if inRun then replaceRuns p rest true
      else '-' :: replaceRuns p rest true
    else c :: replaceRuns p rest false

/-- Models `.replace(/([A-Z])/g, "-$1")`: a hyphen is inserted before every
uppercase ASCII letter. -/
def dashBeforeUpper : Str → Str
  | [] => []
  | c :: rest =>
    if jsIsUpper c then '-' :: c :: dashBeforeUpper rest
    else c :: dashBeforeUpper rest

/-- Models the global replacement of two-or-more hyphen runs by a single
hyphen (a run of length one is already a single hyphen, so collapsing every
run is the same function). -/
def collapseDashes (s : Str) : Str :=
  replaceRuns (fun c => c = '-') s false

/-- Drops every trailing character satisfying `p`. -/
def dropTrailingIf (p : Char → Bool) : Str → Str
  | [] => []
  | c :: rest =>
    match dropTrailingIf p rest with
    | [] => if p c then [] else [c]
    | r => c :: r

/-- Models `.replace(/^-+|-+$/g, "")`. -/
def stripEdgeDashes (s : Str) : Str :=
  dropTrailingIf (fun c => c = '-') (s.dropWhile (fun c => c = '-'))

/-- Global deletion of every character satisfying `p`:
models `.replace(/X+/g, "")`. -/
def removeChars (p : Char → Bool) (s : Str) : Str :=
  s.filter (fun c => !p c)

/-- JS `String.prototype.trim` (ASCII whitespace). -/
def jsTrim (s : Str) : Str :=
  dropTrailingIf jsIsSpace (s.dropWhile jsIsSpace)

/-- Replacement of the first occurrence of the nonempty literal `pat` in a
string by `repl`: models a non-global `.replace(/pat/, "repl")`. -/
def replaceFirstSub (pat repl : Str) : Str → Str
  | [] => []
  | c :: rest =>
    if !pat.isEmpty && pat.isPrefixOf (c :: rest) then repl ++ (c :: rest).drop pat.length
    else c :: replaceFirstSub pat repl rest

/-- Does `needle` occur as a contiguous substring of `hay`?
(Models `String.prototype.includes` and existence of a regex literal.) -/
def containsSub (hay needle : Str) : Bool :=
  match hay with
  | [] => needle.isEmpty
  | _ :: rest => needle.isPrefixOf hay || containsSub rest needle

/-- Split on a set of separator characters; models `s.split(/[..]/)`.
`split` never produces an empty list (splitting the empty string gives
one empty field). -/
def splitOnChars (p : Char → Bool) : Str → List Str
  | [] => [[]]
  | c :: rest =>
    if p c then [] :: splitOnChars p rest
    else
      match splitOnChars p rest with
      | [] => [[c]]
      | f :: fs => (c :: f) :: fs

/-- First field of `s.split(",")`: the prefix before the first comma. -/
def takeBeforeComma (s : Str) : Str :=
  s.takeWhile (fun c => c ≠ ',')

/-! ## JS numbers as exact fractions -/

/-- A JavaScript number, modelled as the exact fraction num/den.  Every
value the generator computes with has a terminating decimal expansion, so
this model matches JS float-and-print behaviour on the generator's data.
Meaningful values have `den ≠ 0`. -/
structure JsNum where
  num : Int
  den : Nat
deriving DecidableEq, Repr

/-- JS `Math.round q` = ⌊q + 1/2⌋ (half-up, ties toward +∞), computed as a
floor division. -/
def jsRound (q : JsNum) : Int :=
  Int.fdiv (2 * q.num + q.den) (2 * q.den)

/-- Value equality of JS numbers (JS `===` on numbers). -/
def jsNumEq (a b : JsNum) : Bool :=
  a.num * b.den = b.num * a.den

/-- `Number.isInteger`. -/
def jsIsInteger (q : JsNum) : Bool :=
  (q.den : Int) ∣ q.num

/-- Multiplication of JS numbers. -/
def JsNum.mul (a b : JsNum) : JsNum :=
  ⟨a.num * b.num, a.den * b.den⟩

/-- The integer n as a JS number. -/
def JsNum.ofInt (n : Int) : JsNum := ⟨n, 1⟩

/-- Decimal digits of a natural number, most significant first (structural
fuel recursion so that the definition evaluates inside the kernel; the fuel
`n + 1` always suffices). -/
def natDigits : Nat → Nat → Str
  | 0, _ => []
  | fuel + 1, n =>
    if n < 10 then [Char.ofNat (48 + n)]
    else natDigits fuel (n / 10) ++ [Char.ofNat (48 + n % 10)]

/-- Decimal rendering of a natural number. -/
def natToStr (n : Nat) : Str := natDigits (n + 1) n

/-- Decimal rendering of an integer (JS `String` on an integral number). -/
def intStr (i : Int) : Str :=
  if i < 0 then '-' :: natToStr i.natAbs else natToStr i.natAbs

/-- Rendering of the number k/10 with exactly one decimal digit:
JS `(k/10).toFixed(1)`. -/
def fixed1OfTenths (k : Int) : Str :=
  (if k < 0 then ['-'] else []) ++ natToStr (k.natAbs / 10) ++ '.' :: natToStr (k.natAbs % 10)

/-- `to1Smart` (generateCSS.ts lines 73-76): round to one decimal; drop the
decimal point when the rounded value is an integer.  `r = Math.round(n*10)/10`
is an integer exactly when the rounded tenths are a multiple of ten. -/
def to1Smart (n : JsNum) : Str :=
  let k := jsRound (n.mul ⟨10, 1⟩)
  if (10 : Int) ∣ k then intStr (Int.fdiv k 10) else fixed1OfTenths k

/-- `to1Fixed` (generateCSS.ts lines 77-79): round to one decimal and always
render one decimal digit. -/
def to1Fixed (n : JsNum) : Str :=
  fixed1OfTenths (jsRound (n.mul ⟨10, 1⟩))

/-- Left-pad with zeros to the given width. -/
def padZeros (s : Str) (w : Nat) : Str :=
  List.replicate (w - s.length) '0' ++ s

/-- JS `String(n)` for a (terminating-decimal) number: integers render with
no decimal point, other values with their exact shortest decimal expansion.
For denominators with a prime factor other than 2 and 5 (which do not arise
in the generator and are not exactly representable in JS either) the full
fraction is rendered. -/
def jsNumToString (q : JsNum) : Str :=
  let g := Nat.gcd q.num.natAbs q.den
  if g = 0 then intStr q.num
  else
    let n : Int := q.num / (g : Int)
    let d : Nat := q.den / g
    if d = 1 then intStr n
    else
      match (List.range 40).find? (fun k => 10 ^ k % d = 0) with
      | some k =>
        let scaled : Nat := n.natAbs * (10 ^ k / d)
        let ip := scaled / 10 ^ k
        let fp := scaled % 10 ^ k
        (if n < 0 then ['-'] else []) ++ natToStr ip ++ '.' :: padZeros (natToStr fp) k
      | none => intStr n ++ '/' :: natToStr d

/-! ## Identifier derivation (generateCSS.ts lines 47-71) -/

/-- `kebab` (generateCSS.ts lines 47-54): slash/whitespace runs to hyphens,
hyphen before each uppercase letter, collapse hyphen runs, lowercase, strip
edge hyphens. -/
def kebab (name : Str) : Str :=
  stripEdgeDashes (toLowerStr (collapseDashes (dashBeforeUpper (replaceRuns isSlashOrSpace name false))))

/-- `toCssVarName` (generateCSS.ts lines 56-71): empty input yields empty;
otherwise slash/whitespace runs to hyphens, runs of characters outside
`[A-Za-z0-9_-]` to hyphens, collapse hyphen runs, strip edge hyphens.
(Despite its doc comment the source does not lowercase here.) -/
def toCssVarName (name : Str) : Str :=
  if name = [] then []
  else stripEdgeDashes (collapseDashes (replaceRuns notCssWordChar (replaceRuns isSlashOrSpace name false) false))

/-! ## The token-graph data model (generateCSS.ts lines 4-34) -/

/-- A dynamically-typed JS value as the generator encounters them: variable
alias objects, colors, numbers, strings, booleans, and the unit objects used
by line-height and letter-spacing. -/
inductive Value where
  | alias (id : Str)
  | color (r g b a : Option JsNum)
  | num (n : JsNum)
  | str (s : Str)
  | bool (b : Bool)
  | unitVal (unit : Option Str) (value : Option JsNum)
deriving DecidableEq, Repr

/-- `isAlias` (generateCSS.ts lines 44-45) on a possibly-undefined value. -/
def isAliasO : Option Value → Bool
  | some (.alias _) => true
  | _ => false

/-- JS truthiness of a possibly-undefined value. -/
def jsTruthy : Option Value → Bool
  | none => false
  | some (.num n) => !(n.num = 0)
  | some (.str s) => !s.isEmpty
  | some (.bool b) => b
  | some _ => true

structure VariableMode where
  modeId : Str
  name : Str
deriving DecidableEq, Repr

structure Variable where
  id : Option Str
  name : Str
  resolvedType : Str
  valuesByMode : List (Str × Value)
  variableCollectionId : Option Str
deriving DecidableEq, Repr

structure Collection where
  id : Str
  name : Str
  modes : List VariableMode
deriving DecidableEq, Repr

structure FontName where
  family : Str
  style : Str
deriving DecidableEq, Repr

/-- `boundVariables` of a text style: each typographic property may carry a
variable binding. -/
structure BoundVars where
  fontFamily : Option Value := none
  fontWeight : Option Value := none
  fontSize : Option Value := none
  lineHeight : Option Value := none
  letterSpacing : Option Value := none
deriving DecidableEq, Repr

structure TextStyle where
  name : Option Str := none
  boundVariables : Option BoundVars := none
  fontFamily : Option Str := none
  fontName : Option FontName := none
  fontWeight : Option Value := none
  fontSize : Option Value := none
  lineHeight : Option Value := none
  letterSpacing : Option Value := none
  textCase : Option Str := none
  textDecoration : Option Str := none
deriving DecidableEq, Repr

/-- `boundVariables` of a paint. -/
structure PaintBoundVars where
  color : Option Value := none
  opacity : Option Value := none
deriving DecidableEq, Repr

structure GradientStop where
  color : Option Value := none
  position : Option JsNum := none
  boundVariables : Option PaintBoundVars := none
deriving DecidableEq, Repr

structure Paint where
  type : Option Str := none
  visible : Option Bool := none
  color : Option Value := none
  opacity : Option Value := none
  boundVariables : Option PaintBoundVars := none
  gradientStops : Option (List GradientStop) := none
deriving DecidableEq, Repr

structure PaintStyle where
  name : Option Str := none
  paints : Option (List Paint) := none
deriving DecidableEq, Repr

/-- `boundVariables` of an effect. -/
structure EffectBoundVars where
  offsetX : Option Value := none
  offsetY : Option Value := none
  radius : Option Value := none
  spread : Option Value := none
  color : Option Value := none
deriving DecidableEq, Repr

structure EffectOffset where
  x : Option Value := none
  y : Option Value := none
deriving DecidableEq, Repr

structure Effect where
  type : Option Str := none
  visible : Option Bool := none
  offset : Option EffectOffset := none
  radius : Option Value := none
  spread : Option Value := none
  color : Option Value := none
  boundVariables : Option EffectBoundVars := none
deriving DecidableEq, Repr

structure EffectStyle where
  name : Option Str := none
  effects : Option (List Effect) := none
deriving DecidableEq, Repr

/-- The payload handed to `generateCSS` (generateCSS.ts lines 21-34).  The
source destructures every field with an empty-list default, so absent and
empty sequences are indistinguishable and are both modelled by `[]`. -/
structure Payload where
  textStyles : List TextStyle := []
  paintStyles : List PaintStyle := []
  effectStyles : List EffectStyle := []
  «variables» : List Variable := []
  variableModes : List VariableMode := []
  collections : List Collection := []
deriving DecidableEq, Repr

/-- `GenerateCSSOptions` (generateCSS.ts lines 4-12). -/
structure GenerateCSSOptions where
  includeTextStyles : Bool
  includePaintStyles : Bool
  includeEffectStyles : Bool
  includeVariables : Bool
  selectedCollectionIds : Option (List Str) := none
  preferTokenRefs : Option Bool := none
  numberUnit : Option Str := none
deriving DecidableEq, Repr

/-- `GeneratedCSSFiles` (generateCSS.ts lines 14-17): a document map plus an
optional combined styles document. -/
structure GeneratedCSSFiles where
  collections : List (Str × Str)
  styles : Option Str
deriving DecidableEq, Repr

/-! ## Small value helpers (generateCSS.ts lines 38-128) -/

/-- `NUMBER_LIKE_TYPES` (generateCSS.ts lines 38-41). -/
def NUMBER_LIKE_TYPES : List Str :=
  ["NUMBER".data, "FLOAT".data, "INT".data, "SPACING".data, "SIZE".data,
   "DIMENSION".data, "RADIUS".data, "BORDER_WIDTH".data, "LINE_HEIGHT".data,
   "LETTER_SPACING".data, "OPACITY".data, "Z_INDEX".data, "FONT_SIZE".data,
   "FONT_WEIGHT".data]

/-- `quoteFontFamily` (lines 81-84): wrap in double quotes when the family
name contains a character outside letters, digits and hyphen. -/
def quoteFontFamily (f : Option Str) : Option Str :=
  match f with
  | none => none
  | some s =>
    if s.isEmpty then none
    else if s.any (fun c => !(jsIsUpper c || jsIsLower c || jsIsDigit c || c = '-')) then
      some ('"' :: s ++ ['"'])
    else some s

/-- Drops the first character when it satisfies `p`. -/
def dropFirstIf (p : Char → Bool) : Str → Str
  | [] => []
  | c :: rest => if p c then rest else c :: rest

/-- Drops the last character when it satisfies `p`. -/
def dropLastIf (p : Char → Bool) : Str → Str
  | [] => []
  | [c] => if p c then [] else [c]
  | c :: rest => c :: dropLastIf p rest

/-- Is the character a single or double quote? -/
def isQuoteChar (c : Char) : Bool := c = '"' || c = '\''

/-- `normalizeFamilyName` (lines 85-89): text before the first comma,
trimmed, with one leading and one trailing quote character removed,
lowercased.  Falsy input gives `none`. -/
def normalizeFamilyName (s : Option Str) : Option Str :=
  match s with
  | none => none
  | some s =>
    if s.isEmpty then none
    else some (toLowerStr (dropLastIf isQuoteChar (dropFirstIf isQuoteChar (jsTrim (takeBeforeComma s)))))

/-- One color channel: `Math.round((raw?.c ?? 0) * 255)`. -/
def chan255 (o : Option JsNum) : Int :=
  jsRound ((o.getD ⟨0, 1⟩).mul ⟨255, 1⟩)

/-- `rgbaFromColor` (lines 91-97).  A non-color value contributes zero
channels and default alpha, exactly as optional chaining does. -/
def rgbaFromColor (raw : Option Value) : Str :=
  match raw with
  | some (.color r g b a) =>
    "rgba(".data ++ intStr (chan255 r) ++ ", ".data ++ intStr (chan255 g) ++ ", ".data
      ++ intStr (chan255 b) ++ ", ".data
      ++ (match a with | some q => to1Fixed q | none => "1.0".data) ++ ")".data
  | _ => "rgba(0, 0, 0, 1.0)".data

/-- `lineHeightToCss` (lines 99-106). -/
def lineHeightToCss (lh : Option Value) : Option Str :=
  if jsTruthy lh = false then none
  else
    match lh with
    | some (.unitVal u v) =>
      if u = some "AUTO".data then some "normal".data
      else if u = some "PERCENT".data then some (to1Smart (v.getD ⟨0, 1⟩) ++ "%".data)
      else if u = some "PIXELS".data then some (to1Smart (v.getD ⟨0, 1⟩) ++ "px".data)
      else none
    | some (.num n) => some (if jsIsInteger n then jsNumToString n else to1Smart n)
    | _ => none

/-- `letterSpacingToCss` (lines 107-113). -/
def letterSpacingToCss (ls : Option Value) : Option Str :=
  if jsTruthy ls = false then none
  else
    match ls with
    | some (.unitVal u v) =>
      if u = some "PERCENT".data then some (to1Smart (v.getD ⟨0, 1⟩) ++ "%".data)
      else if u = some "PIXELS".data then some (to1Smart (v.getD ⟨0, 1⟩) ++ "px".data)
      else none
    | some (.num n) => some (to1Smart n ++ "px".data)
    | _ => none

/-- `weightNameToNumber` (lines 115-128). -/
def weightNameToNumber (w : Str) : Option Nat :=
  if w.isEmpty then none
  else
    let s := removeChars jsIsSpace (toLowerStr w)
    if containsSub s "thin".data then some 100
    else if containsSub s "extralight".data ∨ containsSub s "ultralight".data then some 200
    else if containsSub s "light".data then some 300
    else if containsSub s "regular".data ∨ containsSub s "normal".data then some 400
    else if containsSub s "medium".data then some 500
    else if containsSub s "semibold".data ∨ containsSub s "demi".data then some 600
    else if containsSub s "bold".data then some 700
    else if containsSub s "extrabold".data ∨ containsSub s "ultrabold".data then some 800
    else if containsSub s "black".data ∨ containsSub s "heavy".data then some 900
    else none

/-- `normalizeWeightKey` (lines 129-131): trim, lowercase, delete every
space/underscore/hyphen; the final replace of "semi\s*bold" can only match
the literal "semibold" at this point (all whitespace is already gone) and
rewrites it to itself. -/
def normalizeWeightKey (name : Str) : Str :=
  replaceFirstSub "semibold".data "semibold".data
    (removeChars isSpaceUnderscoreDash (toLowerStr (jsTrim name)))

/-- The weight-label set shared by `buildWeightVarIndex` (lines 135-138) and
the variables emitter (line 282). -/
def weightLabelSet : List Str :=
  ["thin".data, "extralight".data, "ultralight".data, "light".data, "regular".data,
   "normal".data, "medium".data, "semibold".data, "demibold".data, "bold".data,
   "extrabold".data, "ultrabold".data, "black".data, "heavy".data]

/-- Fields of `name.split(/[\/\\]/)`. -/
def splitSlashes (s : Str) : List Str :=
  splitOnChars (fun c => c = '/' || c = '\\') s

/-- The last path segment, falling back to the whole name when the last
field is empty: models `name.split(/[\/\\]/).pop() || name`. -/
def lastSegOr (name : Str) : Str :=
  let seg := ((splitSlashes name).getLast?).getD []
  if seg.isEmpty then name else seg

/-- Remainder of `hay` after the first occurrence of `needle`, if any. -/
def afterFirstSub (hay needle : Str) : Option Str :=
  match hay with
  | [] => if needle.isEmpty then some [] else none
  | _ :: rest =>
    if needle.isPrefixOf hay then some (hay.drop needle.length)
    else afterFirstSub rest needle

/-- Does `hay` contain `a` and, somewhere after it, `b`?  A regex of the
shape a-dot-star-b matches exactly when some occurrence of `a` is followed
by an occurrence of `b`, which holds iff the first occurrence of `a` is. -/
def containsInOrder (hay a b : Str) : Bool :=
  match afterFirstSub hay a with
  | some r => containsSub r b
  | none => false

/-- The case-insensitive test for names containing "font" and "weight" in
either order (lines 144 and 286). -/
def fontWeightNameTest (name : Str) : Bool :=
  let l := toLowerStr name
  containsInOrder l "font".data "weight".data || containsInOrder l "weight".data "font".data

/-- One variable's contribution to the weight index (the body of the loop
at lines 139-150). -/
def weightIndexStep (idx : List (Str × Str)) (v : Variable) : List (Str × Str) :=
  if v.name.isEmpty then idx
  else
    let keb := kebab v.name
    let key := normalizeWeightKey (lastSegOr v.name)
    let looks := fontWeightNameTest v.name || weightLabelSet.contains key
    let isNum := ["NUMBER".data, "FLOAT".data, "INT".data].contains (toUpperStr v.resolvedType)
    if looks && isNum then
      let idx' := mapSet idx key ('-' :: '-' :: keb)
      if key = "regular".data then mapSet idx' "normal".data ('-' :: '-' :: keb) else idx'
    else idx

/-- `buildWeightVarIndex` (lines 132-152). -/
def buildWeightVarIndex (vars : List Variable) : List (Str × Str) :=
  vars.foldl weightIndexStep []

/-! ## Alias resolution (generateCSS.ts lines 156-183) -/

/-- The `varById` index: every variable with a truthy id, later entries
overwriting earlier ones. -/
def varByIdOf (vars : List Variable) : List (Str × Variable) :=
  vars.foldl (fun m v =>
    match v.id with
    | some i => if i.isEmpty then m else mapSet m i v
    | none => m) []

/-- The mode-value selection inside the resolver (lines 177-180): the
requested mode's entry when the mode id is truthy and the entry is defined,
otherwise the first defined entry in insertion order. -/
def aliasTargetModeVal (target : Variable) (modeId : Option Str) : Option Value :=
  match modeId with
  | some m =>
    if m.isEmpty then target.valuesByMode.head?.map (fun p => p.2)
    else
      match mapGet target.valuesByMode m with
      | some v => some v
      | none => target.valuesByMode.head?.map (fun p => p.2)
  | none => target.valuesByMode.head?.map (fun p => p.2)

/-- The recursion of `resolveAliasChainToPrimitive`, with the remaining
depth budget (21 minus the current depth) as structural fuel.  `fuel = 0`
is exactly the source's `depth > 20` bail-out. -/
def resolveGo (varById : List (Str × Variable)) (modeId : Option Str) :
    Nat → Option Value → List Str → Option Value
  | fuel, value, seen =>
    match value with
    | some (.alias aid) =>
      match fuel with
      | 0 => value
      | fuel + 1 =>
        match mapGet varById aid with
        | none => value
        | some target =>
          let tid := target.id.getD []
          if tid.isEmpty = false ∧ setHas seen tid then value
          else
            resolveGo varById modeId fuel (aliasTargetModeVal target modeId)
              (if tid.isEmpty then seen else setAdd seen tid)
    | _ => value

/-- `resolveAliasChainToPrimitive` (lines 163-183).  The source recurses
with an increasing `depth` and bails out when `depth > 20`; the remaining
budget `21 - depth` is the structural fuel of `resolveGo`. -/
def resolveAliasChainToPrimitive (value : Option Value) (modeId : Option Str)
    (varById : List (Str × Variable)) (seen : List Str) (depth : Nat) : Option Value :=
  resolveGo varById modeId (21 - depth) value seen

/-! ## Family-to-variable heuristics (generateCSS.ts lines 185-227) -/

/-- The test for a "primary font family" variable name (line 202),
matching "font", optional separator run, "family", anything, `word`. -/
def famPatWith (word : Str) : Str → Bool
  | [] => false
  | c :: rest =>
    ( if "font".data.isPrefixOf (c :: rest) then
        let r := ((c :: rest).drop 4).dropWhile isSpaceUnderscoreDash
        "family".data.isPrefixOf r && containsSub (r.drop 6) word
      else false)
    || famPatWith word rest

def isPrimaryNameTest (n : Str) : Bool := famPatWith "primary".data (toLowerStr n)

def isSecondaryNameTest (n : Str) : Bool := famPatWith "secondary".data (toLowerStr n)

/-- The `push` closure of `buildFamilyToVarMap` (lines 205-211). -/
def famPush (varById : List (Str × Variable)) (map : List (Str × Str))
    (raw : Option Value) (modeId : Option Str) (varName : Str) : List (Str × Str) :=
  match resolveAliasChainToPrimitive raw modeId varById [] 0 with
  | some (.str term) =>
    match normalizeFamilyName (some term) with
    | some norm => if norm.isEmpty then map else mapSet map norm varName
    | none => map
  | _ => map

/-- One variable's contribution for a fixed semantic var name
(lines 216-223): push every deduplicated mode's value, or the first value
when there are no modes. -/
def famPushModes (varById : List (Str × Variable)) (allModes : List VariableMode)
    (map : List (Str × Str)) (v : Variable) (varName : Str) : List (Str × Str) :=
  if allModes.isEmpty then
    famPush varById map (v.valuesByMode.head?.map (fun p => p.2)) none varName
  else
    allModes.foldl (fun map m =>
      famPush varById map (mapGet v.valuesByMode m.modeId) (some m.modeId) varName) map

/-- `buildFamilyToVarMap` (lines 185-227). -/
def buildFamilyToVarMap (payload : Payload) : List (Str × Str) :=
  let vars := payload.variables
  let varById := varByIdOf vars
  let dedup := payload.collections.foldl (fun (acc : List Str × List VariableMode) c =>
    c.modes.foldl (fun (acc : List Str × List VariableMode) m =>
      let key := m.modeId ++ ':' :: ':' :: m.name
      if setHas acc.1 key then acc else (setAdd acc.1 key, acc.2 ++ [m])) acc) ([], [])
  let allModes := if dedup.2.isEmpty then payload.variableModes else dedup.2
  vars.foldl (fun map v =>
    if v.name.isEmpty then map
    else
      let map1 := if isPrimaryNameTest v.name then
          famPushModes varById allModes map v "--font-family-primary".data
        else map
      if isSecondaryNameTest v.name then
        famPushModes varById allModes map1 v "--font-family-secondary".data
      else map1) []

/-! ## Generic value formatter (generateCSS.ts lines 231-251) -/

/-- Is the value a number (JS `typeof raw === "number"`)? -/
def isNumberValue : Option Value → Bool
  | some (.num _) => true
  | _ => false

/-- Does the value have numeric `r`, `g`, `b` channels? -/
def hasNumericRGB : Option Value → Bool
  | some (.color (some _) (some _) (some _) _) => true
  | _ => false

/-- JS `Number(raw)`, with NaN modelled as `none`.  (String-to-number
coercion is modelled as NaN; the generator never feeds strings into
number-typed slots.) -/
def jsToNumber : Option Value → Option JsNum
  | some (.num n) => some n
  | some (.bool b) => some ⟨if b then 1 else 0, 1⟩
  | _ => none

/-- JS `String(raw)`.  Objects render as "[object Object]". -/
def jsStringOf : Option Value → Str
  | none => "undefined".data
  | some (.str s) => s
  | some (.num n) => jsNumToString n
  | some (.bool b) => if b then "true".data else "false".data
  | some (.alias _) => "[object Object]".data
  | some (.color _ _ _ _) => "[object Object]".data
  | some (.unitVal _ _) => "[object Object]".data

/-- The repeated alias-reference rendering
`var(--${toCssVarName(idToName.get(id) ?? id)})`. -/
def varRefOf (idToName : List (Str × Str)) (aid : Str) : Str :=
  "var(--".data ++ toCssVarName ((mapGet idToName aid).getD aid) ++ ")".data

/-- `formatValue` (lines 231-251).  The `preferTokenRefs` parameter is
accepted but, as in the source, never read. -/
def formatValue (raw : Option Value) (resolvedType : Str) (numberUnit : Str)
    (preferTokenRefs : Bool) (idToName : List (Str × Str)) : Str :=
  match raw with
  | some (.alias aid) => varRefOf idToName aid
  | _ =>
    let t := toUpperStr resolvedType
    if t = "COLOR".data ∧ hasNumericRGB raw then rgbaFromColor raw
    else if NUMBER_LIKE_TYPES.contains t ∨ isNumberValue raw then
      match jsToNumber raw with
      | some num =>
        if numberUnit.isEmpty ∨ numberUnit = "none".data then jsNumToString num
        else to1Smart num ++ numberUnit
      | none => jsStringOf raw
    else jsStringOf raw

/-! ## Variables emitter (generateCSS.ts lines 255-358) -/

/-- Join a list of strings with a separator (`Array.prototype.join`). -/
def joinWithSep (sep : Str) : List Str → Str
  | [] => []
  | [l] => l
  | l :: l2 :: rest => l ++ sep ++ joinWithSep sep (l2 :: rest)

/-- `chunks.join("\n")` and friends. -/
def joinWithNl (ls : List Str) : Str := joinWithSep ['\n'] ls

/-- The `idToName` index (line 259-260 and repeats): variables with a
truthy id, later entries overwriting earlier ones. -/
def idToNameOf (vars : List Variable) : List (Str × Str) :=
  vars.foldl (fun m v =>
    match v.id with
    | some i => if i.isEmpty then m else mapSet m i v.name
    | none => m) []

/-- `opt.selectedCollectionIds?.length ? new Set(...) : null` (line 265):
an undefined or empty selection list means "no filter". -/
def allowedSetOf : Option (List Str) → Option (List Str)
  | some l => if l.isEmpty then none else some l
  | none => none

/-- The collection-by-id record (lines 267-268). -/
def collByIdOf (colls : List Collection) : List (Str × Collection) :=
  colls.foldl (fun m c => mapSet m c.id c) []

/-- `v.variableCollectionId || "unknown"` (line 272). -/
def collKeyOf (v : Variable) : Str :=
  match v.variableCollectionId with
  | some s => if s.isEmpty then "unknown".data else s
  | none => "unknown".data

/-- Append a variable to its group, preserving first-insertion group order
as a JS object does. -/
def pushGroup (groups : List (Str × List Variable)) (k : Str) (v : Variable) :
    List (Str × List Variable) :=
  match groups with
  | [] => [(k, [v])]
  | (k', vs) :: rest =>
    if k' = k then (k', vs ++ [v]) :: rest else (k', vs) :: pushGroup rest k v

/-- `byCollection` (lines 270-274). -/
def byCollectionOf (vars : List Variable) : List (Str × List Variable) :=
  vars.foldl (fun g v => pushGroup g (collKeyOf v) v) []

/-- `isWeightVarName` (lines 283-287). -/
def isWeightVarName (name : Str) : Bool :=
  let key := normalizeWeightKey (toLowerStr (lastSegOr name))
  fontWeightNameTest name || weightLabelSet.contains key

/-- Truthiness of an optional boolean option. -/
def optBoolTruthy : Option Bool → Bool
  | some b => b
  | none => false

/-- `maybeResolveForString` (lines 289-300). -/
def maybeResolveForString (opt : GenerateCSSOptions) (varById : List (Str × Variable))
    (val : Option Value) (resolvedType : Str) (modeId : Option Str) : Option Value :=
  if optBoolTruthy opt.preferTokenRefs then val
  else
    let t := toUpperStr resolvedType
    let isStringish := t = "STRING".data ∨ (¬ NUMBER_LIKE_TYPES.contains t ∧ t ≠ "COLOR".data)
    if isStringish ∧ isAliasO val then
      let terminal := resolveAliasChainToPrimitive val modeId varById [] 0
      if isAliasO terminal then val else terminal
    else val

/-- One emitted declaration line (lines 328-331 and 341-344). -/
def varLine (opt : GenerateCSSOptions) (varById : List (Str × Variable))
    (idToName : List (Str × Str)) (defaultUnit : Str) (modeKey : Str) (modeVal : Value)
    (v : Variable) : Str :=
  let cssVar := '-' :: '-' :: toCssVarName v.name
  let unit := if v.resolvedType = "COLOR".data ∨ isWeightVarName v.name then "none".data else defaultUnit
  let outVal := maybeResolveForString opt varById (some modeVal) v.resolvedType (some modeKey)
  "  ".data ++ cssVar ++ ": ".data
    ++ formatValue outVal v.resolvedType unit (optBoolTruthy opt.preferTokenRefs) idToName
    ++ ";".data

/-- Mode-column selection of the single-mode branch (lines 315-326): the
target mode's entry when the target mode id is truthy and the entry is
defined, otherwise the first defined entry. -/
def rootModeSel (targetModeId : Option Str) (v : Variable) : Option (Str × Value) :=
  match targetModeId with
  | some mid =>
    if mid.isEmpty then v.valuesByMode.head?
    else
      match mapGet v.valuesByMode mid with
      | some val => some (mid, val)
      | none => v.valuesByMode.head?
  | none => v.valuesByMode.head?

/-- The per-variable line of the single-mode branch (lines 315-331): the
declaration rendered from the selected mode column, absent when no column
is defined. -/
def rootLineOf (opt : GenerateCSSOptions) (varById : List (Str × Variable))
    (idToName : List (Str × Str)) (defaultUnit : Str) (targetModeId : Option Str)
    (v : Variable) : Option Str :=
  match rootModeSel targetModeId v with
  | some (mk, mv) => some (varLine opt varById idToName defaultUnit mk mv v)
  | none => none

/-- The single-mode (`:root`) section of one collection (lines 310-333). -/
def singleModeSection (opt : GenerateCSSOptions) (varById : List (Str × Variable))
    (idToName : List (Str × Str)) (defaultUnit : Str) (collName : Str)
    (targetModeId : Option Str) (varsOfColl : List Variable) : List Str :=
  let rootLines := varsOfColl.filterMap (rootLineOf opt varById idToName defaultUnit targetModeId)
  if rootLines.isEmpty then []
  else ("/* ".data ++ collName ++ " */".data) :: ":root \x7b".data :: rootLines
        ++ ["\x7d".data, []]

/-- The multi-mode section of one collection (lines 334-352): one
mode-selector block per mode that has at least one defined value; the
collection header precedes the first printed block, later blocks are
separated by an empty line. -/
def multiModeSection (opt : GenerateCSSOptions) (varById : List (Str × Variable))
    (idToName : List (Str × Str)) (defaultUnit : Str) (collName : Str)
    (modes : List VariableMode) (varsOfColl : List Variable) : List Str :=
  modes.foldl (fun sec m =>
    let modeLines := varsOfColl.filterMap (fun v =>
      match mapGet v.valuesByMode m.modeId with
      | some val => some (varLine opt varById idToName defaultUnit m.modeId val v)
      | none => none)
    if modeLines.isEmpty then sec
    else sec ++ (if sec.isEmpty then "/* ".data ++ collName ++ " */".data else [])
          :: ("[data-mode=\"".data ++ m.name ++ "\"] \x7b".data)
          :: modeLines ++ ["\x7d".data, []]) []

/-- `emitVariablesSection` (lines 255-358). -/
def emitVariablesSection (payload : Payload) (opt : GenerateCSSOptions) : Str :=
  let vars := payload.variables
  if opt.includeVariables = false ∨ vars.isEmpty then []
  else
    let idToName := idToNameOf vars
    let varById := varByIdOf vars
    let allowedSet := allowedSetOf opt.selectedCollectionIds
    let collById := collByIdOf payload.collections
    let byCollection := byCollectionOf vars
    let onlyUnknowns : Bool := (byCollection.length == 1) && mapHas byCollection "unknown".data
    let includeUnknowns : Bool := onlyUnknowns && allowedSet.isSome
    let defaultUnit := opt.numberUnit.getD "px".data
    let chunks := byCollection.foldl (fun chunks (grp : Str × List Variable) =>
      let included : Bool := match allowedSet with
        | none => true
        | some aset => aset.contains grp.1 || (grp.1 == "unknown".data && includeUnknowns)
      if included then
        let coll := mapGet collById grp.1
        let modes := match coll with
          | some c => if c.modes.isEmpty then payload.variableModes else c.modes
          | none => payload.variableModes
        let collName := (coll.map (fun c => c.name)).getD "Variables".data
        let sect :=
          if modes.length ≤ 1 then
            singleModeSection opt varById idToName defaultUnit collName
              ((modes.head?).map (fun m => m.modeId)) grp.2
          else multiModeSection opt varById idToName defaultUnit collName modes grp.2
        if sect.isEmpty then chunks else chunks ++ sect
      else chunks) []
    joinWithNl chunks

/-! ## Text-styles emitter (generateCSS.ts lines 362-477) -/

/-- The bound-variables record of a text style (`s.boundVariables || {}`,
line 398). -/
def bvOf (s : TextStyle) : BoundVars :=
  s.boundVariables.getD {}

/-- `s.fontFamily` quoted, falling back to `s.fontName?.family` quoted
(line 401). -/
def literalFamilyOf (s : TextStyle) : Option Str :=
  match quoteFontFamily s.fontFamily with
  | some lf => some lf
  | none => quoteFontFamily (s.fontName.map (fun fn => fn.family))

/-- The font-family declaration (lines 404-411). -/
def fontFamilyDeclOf (idToName familyToVar : List (Str × Str)) (s : TextStyle) : Option Str :=
  let literalFamily := literalFamilyOf s
  let norm := normalizeFamilyName literalFamily
  match (bvOf s).fontFamily with
  | some (.alias aid) => some ("  font-family: ".data ++ varRefOf idToName aid ++ ";".data)
  | _ =>
    let hit := match norm with
      | some nm => if nm.isEmpty then none else mapGet familyToVar nm
      | none => none
    match hit with
    | some fam => some ("  font-family: var(".data ++ fam ++ ");".data)
    | none =>
      match literalFamily with
      | some lf => some ("  font-family: ".data ++ lf ++ ";".data)
      | none => none

/-- The weight label (lines 414-415): `s.fontWeight` when it is a string,
else `s.fontName?.style`. -/
def weightLabelOf (s : TextStyle) : Option Str :=
  match s.fontWeight with
  | some (.str w) => some w
  | _ => s.fontName.map (fun fn => fn.style)

/-- The font-weight value (lines 417-432): bound variable first, then an
alias sitting on the value, then the weight-variable index keyed by the
normalized label, then the label-to-number table, then a numeric literal. -/
def textFontWeightVal (idToName weightVars : List (Str × Str)) (s : TextStyle) : Option Str :=
  match (bvOf s).fontWeight with
  | some (.alias aid) => some (varRefOf idToName aid)
  | _ =>
    match s.fontWeight, weightLabelOf s with
    | some (.alias aid), _ => some (varRefOf idToName aid)
    | _, some wl =>
      let key := normalizeWeightKey wl
      match mapGet weightVars key with
      | some tokenVar => some ("var(".data ++ tokenVar ++ ")".data)
      | none =>
        match weightNameToNumber wl with
        | some n => some (natToStr n)
        | none => none
    | some (.num n), none => some (jsNumToString n)
    | _, none => none

/-- The font-size value (lines 435-439). -/
def textFontSizeVal (idToName : List (Str × Str)) (s : TextStyle) : Option Str :=
  match (bvOf s).fontSize with
  | some (.alias aid) => some (varRefOf idToName aid)
  | _ =>
    match s.fontSize with
    | some (.alias aid) => some (varRefOf idToName aid)
    | some (.num n) => some (to1Smart n ++ "px".data)
    | _ => none

/-- The line-height value (lines 442-446). -/
def textLineHeightVal (idToName : List (Str × Str)) (s : TextStyle) : Option Str :=
  match (bvOf s).lineHeight with
  | some (.alias aid) => some (varRefOf idToName aid)
  | _ =>
    match s.lineHeight with
    | some (.alias aid) => some (varRefOf idToName aid)
    | _ => lineHeightToCss s.lineHeight

/-- The letter-spacing value (lines 449-453). -/
def textLetterSpacingVal (idToName : List (Str × Str)) (s : TextStyle) : Option Str :=
  match (bvOf s).letterSpacing with
  | some (.alias aid) => some (varRefOf idToName aid)
  | _ =>
    match s.letterSpacing with
    | some (.alias aid) => some (varRefOf idToName aid)
    | _ => letterSpacingToCss s.letterSpacing

/-- `s.textCase ? String(s.textCase).toLowerCase() : undefined` (line 455). -/
def textTransformOf (s : TextStyle) : Option Str :=
  match s.textCase with
  | some tc => if tc.isEmpty then none else some (toLowerStr tc)
  | none => none

/-- `s.textDecoration ? String(s.textDecoration).toLowerCase() : undefined`
(line 456). -/
def textDecorationOf (s : TextStyle) : Option Str :=
  match s.textDecoration with
  | some td => if td.isEmpty then none else some (toLowerStr td)
  | none => none

/-- The case-keyword mapping `{ upper: "uppercase", lowercase: "lowercase",
title: "capitalize" }` with fall-through to the raw value (lines 465-466). -/
def textTransformKeyword (t : Str) : Str :=
  if t = "upper".data then "uppercase".data
  else if t = "lowercase".data then "lowercase".data
  else if t = "title".data then "capitalize".data
  else t

/-- The text-transform declaration (lines 464-467): suppressed for
"original". -/
def textTransformDecl (s : TextStyle) : Option Str :=
  match textTransformOf s with
  | some tt =>
    if tt = "original".data then none
    else some ("  text-transform: ".data ++ textTransformKeyword tt ++ ";".data)
  | none => none

/-- The text-decoration declaration (lines 468-470): suppressed for
"none". -/
def textDecorationDecl (s : TextStyle) : Option Str :=
  match textDecorationOf s with
  | some td =>
    if td = "none".data then none
    else some ("  text-decoration: ".data ++ td ++ ";".data)
  | none => none

/-- A singleton or empty list from an optional element. -/
def optToList {α : Type} : Option α → List α
  | some a => [a]
  | none => []

/-- The declaration list of one text style, in source order
(lines 458-470). -/
def textStyleDecls (idToName weightVars familyToVar : List (Str × Str)) (s : TextStyle) :
    List Str :=
  optToList (fontFamilyDeclOf idToName familyToVar s)
  ++ optToList ((textFontWeightVal idToName weightVars s).map
        (fun w => "  font-weight: ".data ++ w ++ ";".data))
  ++ optToList ((textFontSizeVal idToName s).map
        (fun v => "  font-size: ".data ++ v ++ ";".data))
  ++ optToList ((textLineHeightVal idToName s).map
        (fun v => "  line-height: ".data ++ v ++ ";".data))
  ++ optToList ((textLetterSpacingVal idToName s).map
        (fun v => "  letter-spacing: ".data ++ v ++ ";".data))
  ++ optToList (textTransformDecl s)
  ++ optToList (textDecorationDecl s)

/-- The token segment of a style name: the second field when the name
contains a slash, else the whole name (lines 392-393 and analogues). -/
def tokenSegOf (fullName : Str) : Str :=
  if containsSub fullName "/".data then ((splitOnChars (fun c => c = '/') fullName).get? 1).getD []
  else fullName

/-- One text-style class block (lines 389-473). -/
def textStyleBlock (idToName weightVars familyToVar : List (Str × Str)) (s : TextStyle) :
    Option Str :=
  let fullName := s.name.getD "text-style".data
  let name := kebab (tokenSegOf fullName)
  let cls := '.' :: name
  let decls := textStyleDecls idToName weightVars familyToVar s
  if decls.isEmpty then none
  else some (cls ++ " \x7b\n".data ++ joinWithNl decls ++ "\n\x7d\n".data)

/-- Stable insertion (descending by count) used to model the stable JS
sort with comparator `(a, b) => b[1] - a[1]` (line 382). -/
def insertByCountDesc (x : Str × Nat) : List (Str × Nat) → List (Str × Nat)
  | [] => [x]
  | y :: rest => if y.2 < x.2 then x :: y :: rest else y :: insertByCountDesc x rest

def sortByCountDesc (l : List (Str × Nat)) : List (Str × Nat) :=
  l.foldl (fun acc x => insertByCountDesc x acc) []

/-- The family-frequency fallback (lines 375-385): when fewer than two
families were mapped by naming, count normalized families across text
styles, rank by frequency, and fill the unclaimed primary/secondary slots. -/
def familyFreqFallback (textStyles : List TextStyle) (familyToVar : List (Str × Str)) :
    List (Str × Str) :=
  if familyToVar.length < 2 then
    let freq := textStyles.foldl (fun freq s =>
      match normalizeFamilyName (literalFamilyOf s) with
      | some norm =>
        if norm.isEmpty then freq
        else mapSet freq norm ((mapGet freq norm).getD 0 + 1)
      | none => freq) []
    let sorted := (sortByCountDesc freq).map (fun p => p.1)
    let ftv1 := match sorted.get? 0 with
      | some f0 => if f0.isEmpty = false ∧ mapHas familyToVar f0 = false then
            mapSet familyToVar f0 "--font-family-primary".data
          else familyToVar
      | none => familyToVar
    match sorted.get? 1 with
    | some f1 => if f1.isEmpty = false ∧ mapHas ftv1 f1 = false then
          mapSet ftv1 f1 "--font-family-secondary".data
        else ftv1
    | none => ftv1
  else familyToVar

/-- `emitTextStylesSection` (lines 362-477). -/
def emitTextStylesSection (payload : Payload) (opt : GenerateCSSOptions) : Str :=
  if opt.includeTextStyles = false then []
  else if payload.textStyles.isEmpty then []
  else
    let idToName := idToNameOf payload.variables
    let weightVars := buildWeightVarIndex payload.variables
    let familyToVar := familyFreqFallback payload.textStyles (buildFamilyToVarMap payload)
    let blocks := payload.textStyles.filterMap (textStyleBlock idToName weightVars familyToVar)
    if blocks.isEmpty then []
    else joinWithNl ("/* Text Styles as classes (alias → var when possible; else literals) */".data :: blocks)

/-! ## Paint-styles emitter (generateCSS.ts lines 481-544) -/

/-- `firstVisible` (lines 481-485) for paints: first layer whose `visible`
flag is not explicitly false, else the first layer. -/
def firstVisiblePaint (arr : Option (List Paint)) : Option Paint :=
  match arr with
  | none => none
  | some [] => none
  | some l =>
    match l.find? (fun p => !(p.visible == some false)) with
    | some p => some p
    | none => l.head?

/-- Numeric coercion used by the unguarded arithmetic sites
(`to1Smart(x ?? 0)`): numbers stay, absent values become 0, booleans
coerce, anything else is NaN. -/
def numOrZero : Option Value → Option JsNum
  | some (.num n) => some n
  | some (.bool b) => some ⟨if b then 1 else 0, 1⟩
  | none => some ⟨0, 1⟩
  | some _ => none

/-- `to1Smart` over a possibly-NaN number. -/
def to1SmartO : Option JsNum → Str
  | some q => to1Smart q
  | none => "NaN".data

/-- `gradientToCss` (lines 486-499). -/
def gradientToCss (stops : List GradientStop) (idToName : List (Str × Str))
    (preferTokenRefs : Bool) : Str :=
  let parts := stops.map (fun s =>
    let bvColor := (s.boundVariables.getD {}).color
    let col := match bvColor with
      | some (.alias aid) => varRefOf idToName aid
      | _ =>
        match s.color with
        | some (.alias aid) => varRefOf idToName aid
        | _ => rgbaFromColor s.color
    match s.position with
    | some pos => col ++ ' ' :: to1Smart (pos.mul ⟨100, 1⟩) ++ "%".data
    | none => col)
  "linear-gradient(90deg, ".data ++ joinWithSep ", ".data parts ++ ")".data

/-- The lines contributed by one paint style (lines 510-540). -/
def paintStyleLines (idToName : List (Str × Str)) (opt : GenerateCSSOptions)
    (p : PaintStyle) : List Str :=
  let fullName := p.name.getD "paint".data
  let name := kebab (tokenSegOf fullName)
  match firstVisiblePaint p.paints with
  | none => []
  | some paint =>
    if paint.type = some "SOLID".data then
      let pbv := paint.boundVariables.getD {}
      let colorVal := match pbv.color with
        | some (.alias aid) => varRefOf idToName aid
        | _ =>
          match paint.color with
          | some (.alias aid) => varRefOf idToName aid
          | _ => rgbaFromColor paint.color
      let base := ["  --".data ++ name ++ ": ".data ++ colorVal ++ ";".data]
      match pbv.opacity with
      | some (.alias aid) =>
        base ++ ["  --".data ++ name ++ "-opacity: ".data ++ varRefOf idToName aid ++ ";".data]
      | _ =>
        match paint.opacity with
        | some (.num o) =>
          if jsNumEq o ⟨1, 1⟩ then base
          else base ++ ["  --".data ++ name ++ "-opacity: ".data ++ to1Smart o ++ ";".data]
        | some (.alias aid) =>
          base ++ ["  --".data ++ name ++ "-opacity: ".data ++ varRefOf idToName aid ++ ";".data]
        | _ => base
    else
      match paint.type with
      | some t =>
        if "GRADIENT".data.isPrefixOf t then
          ["  --".data ++ name ++ ": ".data
            ++ gradientToCss (paint.gradientStops.getD []) idToName (optBoolTruthy opt.preferTokenRefs)
            ++ ";".data]
        else []
      | none => []

/-- `emitPaintStylesSection` (lines 501-544). -/
def emitPaintStylesSection (payload : Payload) (opt : GenerateCSSOptions) : Str :=
  if opt.includePaintStyles = false then []
  else if payload.paintStyles.isEmpty then []
  else
    let idToName := idToNameOf payload.variables
    let lines := payload.paintStyles.foldl
      (fun acc p => acc ++ paintStyleLines idToName opt p) []
    if lines.isEmpty then []
    else joinWithNl ("/* Paint Styles (alias → var, else literals) */".data
          :: ":root \x7b".data :: lines ++ ["\x7d".data, []])

/-! ## Effect-styles emitter (generateCSS.ts lines 548-590) -/

/-- `firstVisible` for effects. -/
def firstVisibleEffect (arr : Option (List Effect)) : Option Effect :=
  match arr with
  | none => none
  | some [] => none
  | some l =>
    match l.find? (fun e => !(e.visible == some false)) with
    | some e => some e
    | none => l.head?

/-- One shadow sub-value (offsets, radius, spread): bound-variable alias
first, then a value-level alias, then a unit-suffixed literal. -/
def effectLenVal (idToName : List (Str × Str)) (bv v : Option Value) : Str :=
  match bv with
  | some (.alias aid) => varRefOf idToName aid
  | _ =>
    match v with
    | some (.alias aid) => varRefOf idToName aid
    | _ => to1SmartO (numOrZero v) ++ "px".data

/-- The shadow color sub-value (line 575): alias preference, then the color
literal defaulting to 25%-alpha black. -/
def effectColorVal (idToName : List (Str × Str)) (bv v : Option Value) : Str :=
  match bv with
  | some (.alias aid) => varRefOf idToName aid
  | _ =>
    match v with
    | some (.alias aid) => varRefOf idToName aid
    | some c => rgbaFromColor (some c)
    | none => rgbaFromColor (some (.color (some ⟨0, 1⟩) (some ⟨0, 1⟩) (some ⟨0, 1⟩) (some ⟨1, 4⟩)))

/-- The lines contributed by one effect style (lines 558-586). -/
def effectStyleLines (idToName : List (Str × Str)) (e : EffectStyle) : List Str :=
  let fullName := e.name.getD "effect".data
  let name := kebab (tokenSegOf fullName)
  match firstVisibleEffect e.effects with
  | none => []
  | some eff =>
    let ebv := eff.boundVariables.getD {}
    if eff.type = some "DROP_SHADOW".data ∨ eff.type = some "INNER_SHADOW".data then
      let inset := if eff.type = some "INNER_SHADOW".data then " inset".data else []
      let offs := eff.offset.getD {}
      let ox := effectLenVal idToName ebv.offsetX offs.x
      let oy := effectLenVal idToName ebv.offsetY offs.y
      let blur := effectLenVal idToName ebv.radius eff.radius
      let spread := effectLenVal idToName ebv.spread eff.spread
      let color := effectColorVal idToName ebv.color eff.color
      ["  --".data ++ name ++ ": ".data ++ ox ++ ' ' :: oy ++ ' ' :: blur ++ ' ' :: spread
        ++ ' ' :: color ++ inset ++ ";".data]
    else if eff.type = some "LAYER_BLUR".data ∨ eff.type = some "BACKGROUND_BLUR".data then
      ["  --".data ++ name ++ ": ".data ++ effectLenVal idToName ebv.radius eff.radius ++ ";".data]
    else []

/-- `emitEffectStylesSection` (lines 548-590). -/
def emitEffectStylesSection (payload : Payload) (opt : GenerateCSSOptions) : Str :=
  if opt.includeEffectStyles = false then []
  else if payload.effectStyles.isEmpty then []
  else
    let idToName := idToNameOf payload.variables
    let lines := payload.effectStyles.foldl
      (fun acc e => acc ++ effectStyleLines idToName e) []
    if lines.isEmpty then []
    else joinWithNl ("/* Effect Styles (alias → var, else literals) */".data
          :: ":root \x7b".data :: lines ++ ["\x7d".data, []])

/-! ## Assembly (generateCSS.ts lines 594-689) -/

/-- The newline-run collapse of `appendHeader`: every maximal run of three
or more newlines becomes exactly two.  The counter tracks how many
newlines of the current run have been kept. -/
def collapseNl3Aux : Str → Nat → Str
  | [], _ => []
  | c :: rest, k =>
    if c = '\n' then
      if 2 ≤ k then collapseNl3Aux rest k
      else '\n' :: collapseNl3Aux rest (k + 1)
    else c :: collapseNl3Aux rest 0

def collapseNl3 (s : Str) : Str := collapseNl3Aux s 0

/-- `appendHeader` (lines 594-597), with the clock reading as an explicit
parameter. -/
def appendHeader (now : Str) (content : Str) : Str :=
  if content.isEmpty then []
  else collapseNl3 ("/* Auto-generated design tokens */\n/* ".data ++ now
        ++ " */\n\n".data ++ content)

/-- The option normalization at the top of `generateCSS` (lines 600-608).
Note that the four include flags are set to `true` outright; the caller's
flags are not consulted. -/
def normalizeOptions (options : GenerateCSSOptions) : GenerateCSSOptions :=
  { includeTextStyles := true
    includePaintStyles := true
    includeEffectStyles := true
    includeVariables := true
    selectedCollectionIds := options.selectedCollectionIds
    preferTokenRefs := some (options.preferTokenRefs.getD true)
    numberUnit := some (options.numberUnit.getD "px".data) }

/-- One mode of a multi-mode collection (lines 634-649): emit the variables
section against a payload narrowed to this single mode and this single
collection, and file it under CollectionName-ModeName. -/
def genModeStep (payload : Payload) (opt : GenerateCSSOptions) (now : Str)
    (coll : Collection) (acc : List (Str × Str)) (mode : VariableMode) : List (Str × Str) :=
  let optForColl := { opt with selectedCollectionIds := some [coll.id] }
  let collForMode := { coll with modes := [mode] }
  let modeContent := emitVariablesSection
    { payload with collections := [collForMode], variableModes := [mode] } optForColl
  if modeContent.isEmpty then acc
  else mapSet acc (coll.name ++ '-' :: mode.name) (appendHeader now modeContent)

/-- One collection of the assembler loop (lines 620-662). -/
def genCollStep (payload : Payload) (opt : GenerateCSSOptions) (now : Str)
    (acc : List (Str × Str)) (coll : Collection) : List (Str × Str) :=
  let included : Bool := match allowedSetOf opt.selectedCollectionIds with
    | none => true
    | some aset => aset.contains coll.id
  if included = false then acc
  else
    let collVariables := payload.variables.filter
      (fun v => v.variableCollectionId == some coll.id)
    if collVariables.isEmpty then acc
    else if 1 < coll.modes.length then
      coll.modes.foldl (genModeStep payload opt now coll) acc
    else
      let optForColl := { opt with selectedCollectionIds := some [coll.id] }
      let collContent := emitVariablesSection { payload with collections := [coll] } optForColl
      if collContent.isEmpty then acc
      else mapSet acc coll.name (appendHeader now collContent)

/-- `generateCSS` (lines 599-689). -/
def generateCSS (payload : Payload) (options : GenerateCSSOptions) (now : Str) :
    GeneratedCSSFiles :=
  let opt := normalizeOptions options
  let collFiles :=
    if opt.includeVariables ∧ payload.collections.isEmpty = false then
      payload.collections.foldl (genCollStep payload opt now) []
    else []
  let paintPart := if opt.includePaintStyles then
      (let c := emitPaintStylesSection payload opt; if c.isEmpty then [] else [c])
    else []
  let effectPart := if opt.includeEffectStyles then
      (let c := emitEffectStylesSection payload opt; if c.isEmpty then [] else [c])
    else []
  let textPart := if opt.includeTextStyles then
      (let c := emitTextStylesSection payload opt; if c.isEmpty then [] else [c])
    else []
  let styleParts := paintPart ++ effectPart ++ textPart
  let styles := if styleParts.isEmpty then none
    else some (appendHeader now (joinWithSep "\n\n".data styleParts))
  { collections := collFiles, styles := styles }

/-! ## Claim-support definitions -/

/-- Specified rendering from the spec's words: deterministic half-up
rounding of N to one decimal place, dropping the decimal point when the
rounded value is an integer.  Tenths are floor(10 N + 1/2). -/
def halfUpOneDecimalSpec (q : JsNum) : Str :=
  let tenths : Int := Int.fdiv (20 * q.num + q.den) (2 * q.den)
  if (10 : Int) ∣ tenths then intStr (Int.fdiv tenths 10) else fixed1OfTenths tenths

/-- Split a string at newline characters (always at least one field). -/
def splitNl : Str → List Str
  | [] => [[]]
  | c :: rest =>
    if c = '\n' then [] :: splitNl rest
    else
      match splitNl rest with
      | [] => [[c]]
      | f :: fs => (c :: f) :: fs

/-- Remove the second line of a document (the timestamp comment line of a
generated header). -/
def stripTimestampLine (s : Str) : Str :=
  match splitNl s with
  | l1 :: _ :: rest => joinWithNl (l1 :: rest)
  | _ => s

/-- Remove the timestamp line from every document of a name-indexed map. -/
def stripDocs (m : List (Str × Str)) : List (Str × Str) :=
  m.map (fun kv => (kv.1, stripTimestampLine kv.2))

/-- Remove the timestamp line from every document of a generation result. -/
def stripStamps (f : GeneratedCSSFiles) : GeneratedCSSFiles :=
  { collections := stripDocs f.collections
    styles := f.styles.map stripTimestampLine }

/-- An alias chain inside the variable index: following the listed ids in
order, each id resolves to a variable carrying that id whose selected mode
value is an alias to the next id, and the last id's selected value is
`term`.  Ids are required truthy so the resolver's cycle bookkeeping sees
them. -/
def ChainTo (varById : List (Str × Variable)) (modeId : Option Str) :
    List Str → Option Value → Prop
  | [], _ => False
  | [i], term =>
    i ≠ [] ∧ ∃ t, mapGet varById i = some t ∧ t.id = some i ∧
      aliasTargetModeVal t modeId = term
  | i :: j :: rest, term =>
    i ≠ [] ∧ ∃ t, mapGet varById i = some t ∧ t.id = some i ∧
      aliasTargetModeVal t modeId = some (.alias j) ∧
      ChainTo varById modeId (j :: rest) term

/-- The mode-value selection described by the spec for a mode document
(amended): the variable's value for the requested mode when defined,
otherwise its first defined value from any mode. -/
def chooseValSpec (v : Variable) (m : VariableMode) : Option (Str × Value) :=
  match mapGet v.valuesByMode m.modeId with
  | some val => some (m.modeId, val)
  | none => v.valuesByMode.head?

/-- Specified body of the per-mode document of a multi-mode collection
(amended description): the collection's variables in payload order, each
rendered from its mode-selected (or fallback) value, wrapped in a header
comment and a top-scope block; empty when no variable contributes. -/
def modeDocBodySpec (p : Payload) (o : GenerateCSSOptions) (coll : Collection)
    (m : VariableMode) : Str :=
  let opt := normalizeOptions o
  let optForColl := { opt with selectedCollectionIds := some [coll.id] }
  let varById := varByIdOf p.variables
  let idToName := idToNameOf p.variables
  let defaultUnit := optForColl.numberUnit.getD "px".data
  let vars := p.variables.filter (fun v => v.variableCollectionId == some coll.id)
  let lines := vars.filterMap (fun v =>
    (chooseValSpec v m).map (fun mkv => varLine optForColl varById idToName defaultUnit mkv.1 mkv.2 v))
  if lines.isEmpty then []
  else joinWithNl (("/* ".data ++ coll.name ++ " */".data) :: ":root \x7b".data :: lines
        ++ ["\x7d".data, []])

/-- The content the assembler files for one mode of a multi-mode
collection: the variables section of the payload narrowed to that single
mode and collection. -/
def modeContentOf (p : Payload) (opt : GenerateCSSOptions) (coll : Collection)
    (md : VariableMode) : Str :=
  emitVariablesSection
    { p with collections := [{ coll with modes := [md] }], variableModes := [md] }
    { opt with selectedCollectionIds := some [coll.id] }

/-! ### Concrete sample data for the individual claims -/

/-- Options record with all four include flags false (claim C1). -/
def c1Opts : GenerateCSSOptions :=
  { includeTextStyles := false, includePaintStyles := false,
    includeEffectStyles := false, includeVariables := false }

def c1TextStyle : TextStyle :=
  { name := some "Head/title".data, fontWeight := some (.str "SemiBold".data) }

def c1Paint : PaintStyle :=
  { name := some "Fill/red".data,
    paints := some [{ type := some "SOLID".data,
                      color := some (.color (some ⟨1, 1⟩) (some ⟨0, 1⟩) (some ⟨0, 1⟩) (some ⟨1, 1⟩)) }] }

def c1Effect : EffectStyle :=
  { name := some "Shadow/soft".data,
    effects := some [{ type := some "LAYER_BLUR".data, radius := some (.num ⟨4, 1⟩) }] }

def c1Var : Variable :=
  { id := some "v1".data, name := "gap".data, resolvedType := "NUMBER".data,
    valuesByMode := [("m1".data, .num ⟨8, 1⟩)], variableCollectionId := some "c1".data }

def c1Coll : Collection :=
  { id := "c1".data, name := "Global".data, modes := [⟨"m1".data, "Default".data⟩] }

/-- A payload with content in all four domains (claim C1). -/
def c1Payload : Payload :=
  { textStyles := [c1TextStyle], paintStyles := [c1Paint], effectStyles := [c1Effect],
    «variables» := [c1Var], collections := [c1Coll] }

/-- A numeric weight variable whose last path segment is literally
"font-weight-semibold" (claim C3). -/
def c3SemiboldVar : Variable :=
  { id := some "v1".data, name := "typography/font-weight-semibold".data,
    resolvedType := "NUMBER".data, valuesByMode := [("m1".data, .num ⟨600, 1⟩)],
    variableCollectionId := some "c1".data }

/-- A text style whose fontWeight is the string "SemiBold" (claim C3). -/
def c3Style : TextStyle :=
  { name := some "Head/title".data, fontWeight := some (.str "SemiBold".data) }

def c3Payload : Payload :=
  { «variables» := [c3SemiboldVar], textStyles := [c3Style] }

/-- A two-mode collection (claim C6). -/
def c6Coll : Collection :=
  { id := "c1".data, name := "Theme".data,
    modes := [⟨"m1".data, "Light".data⟩, ⟨"m2".data, "Dark".data⟩] }

/-- A variable that defines a value only for the Dark mode (claim C6). -/
def c6Var : Variable :=
  { id := some "v1".data, name := "color/bg".data, resolvedType := "NUMBER".data,
    valuesByMode := [("m2".data, .num ⟨10, 1⟩)], variableCollectionId := some "c1".data }

def c6Payload : Payload :=
  { «variables» := [c6Var], collections := [c6Coll] }

/-- Options with every domain enabled and no overrides. -/
def allOnOpts : GenerateCSSOptions :=
  { includeTextStyles := true, includePaintStyles := true,
    includeEffectStyles := true, includeVariables := true }

/-- A two-step alias chain a -> b -> 4 (claim C2 witness). -/
def c2VarA : Variable :=
  { id := some "a".data, name := "alias/a".data, resolvedType := "NUMBER".data,
    valuesByMode := [("m1".data, .alias "b".data)], variableCollectionId := some "c1".data }

def c2VarB : Variable :=
  { id := some "b".data, name := "alias/b".data, resolvedType := "NUMBER".data,
    valuesByMode := [("m1".data, .num ⟨4, 1⟩)], variableCollectionId := some "c1".data }

def c2Index : List (Str × Variable) := varByIdOf [c2VarA, c2VarB]

/-- A one-variable alias cycle c -> c (claim C2 witness). -/
def c2CycVar : Variable :=
  { id := some "c".data, name := "alias/c".data, resolvedType := "NUMBER".data,
    valuesByMode := [("m1".data, .alias "c".data)], variableCollectionId := some "c1".data }

def c2CycIndex : List (Str × Variable) := varByIdOf [c2CycVar]

/-- Does the string start with a hyphen? -/
def headIsDash : Str → Bool
  | [] => false
  | c :: _ => c = '-'

/-- Does the string end with a hyphen? -/
def lastIsDash : Str → Bool
  | [] => false
  | [c] => c = '-'
  | _ :: c :: rest => lastIsDash (c :: rest)

/-- Does the string avoid two adjacent hyphens? -/
def noDoubleDash : Str → Bool
  | [] => true
  | [_] => true
  | c :: d :: rest => !(c = '-' && d = '-') && noDoubleDash (d :: rest)

/-- A numeric weight variable whose last path segment is "semibold"
(claim C3 witness for the amended statement). -/
def c3GoodVar : Variable :=
  { id := some "v2".data, name := "font-weight/semibold".data,
    resolvedType := "NUMBER".data, valuesByMode := [("m1".data, .num ⟨600, 1⟩)],
    variableCollectionId := some "c1".data }

/-- The newline-run counter state after scanning a string (companion to
collapseNl3Aux). -/
def nlStateAux : Str → Nat → Nat
  | [], k => k
  | c :: rest, k =>
    if c = '\n' then
      if 2 ≤ k then nlStateAux rest k else nlStateAux rest (k + 1)
    else nlStateAux rest 0

/-! ## Claims -/

set_option maxRecDepth 40000 in
/-- Claim C1 (code bug): the four include flags are supposed to disable
their domains, but generateCSS overwrites all four with true
(lines 600-604), so an all-false options record still produces variable
documents and a styles document with paint, effect and text content, and
the output is identical to the all-true output. -/
theorem c1_includeFlagsIgnored :
    (generateCSS c1Payload c1Opts "2024-01-01T00:00:00.000Z".data).collections ≠ []
    ∧ (generateCSS c1Payload c1Opts "2024-01-01T00:00:00.000Z".data).styles.isSome = true
    ∧ containsSub ((generateCSS c1Payload c1Opts "2024-01-01T00:00:00.000Z".data).styles.getD [])
        "font-weight: 600;".data = true
    ∧ containsSub ((generateCSS c1Payload c1Opts "2024-01-01T00:00:00.000Z".data).styles.getD [])
        "Paint Styles".data = true
    ∧ containsSub ((generateCSS c1Payload c1Opts "2024-01-01T00:00:00.000Z".data).styles.getD [])
        "Effect Styles".data = true
    ∧ generateCSS c1Payload c1Opts "T".data = generateCSS c1Payload allOnOpts "T".data := by
  decide

/-- Claim C10: omitting preferTokenRefs behaves exactly like passing true
(the default is applied with a nullish check at line 606), the
prefer-references policy leaves alias values untouched in the variables
emitter, and formatValue renders an alias value as a var reference to the
derived custom-property name. -/
theorem c10_preferTokenRefsDefault :
    (∀ (p : Payload) (o : GenerateCSSOptions) (t : Str),
      generateCSS p { o with preferTokenRefs := none } t
        = generateCSS p { o with preferTokenRefs := some true } t)
    ∧ (∀ (opt : GenerateCSSOptions) (varById : List (Str × Variable)) (rt : Str)
        (modeId : Option Str) (val : Option Value), opt.preferTokenRefs = some true →
        maybeResolveForString opt varById val rt modeId = val)
    ∧ (∀ (idToName : List (Str × Str)) (aid rt unit : Str) (pref : Bool),
        formatValue (some (.alias aid)) rt unit pref idToName
          = "var(--".data ++ toCssVarName ((mapGet idToName aid).getD aid) ++ ")".data) := by
  refine ⟨fun p o t => rfl, fun opt varById rt modeId val h => ?_, fun i aid rt u pref => rfl⟩
  simp [maybeResolveForString, h, optBoolTruthy]

/-- Witness for claim C10 at concrete inputs. -/
theorem c10_preferTokenRefsDefault_witness :
    maybeResolveForString { allOnOpts with preferTokenRefs := some true } []
      (some (.alias "v1".data)) "STRING".data none = some (.alias "v1".data) :=
  c10_preferTokenRefsDefault.2.1 _ [] "STRING".data none (some (.alias "v1".data)) rfl

/-- Claim C9: in the text-style emitter a text-case of "original" and a
decoration of "none" (case-insensitively) emit no declaration, and the
case values upper, lowercase and title map to the uppercase, lowercase and
capitalize keywords; the transform and decoration declarations are the
ones assembled into the style's declaration list. -/
theorem c9_textCaseMapping :
    (∀ (s : TextStyle) (tc : Str), s.textCase = some tc →
      toLowerStr tc = "original".data → textTransformDecl s = none)
    ∧ (∀ (s : TextStyle) (td : Str), s.textDecoration = some td →
      toLowerStr td = "none".data → textDecorationDecl s = none)
    ∧ (∀ (s : TextStyle) (tc : Str), s.textCase = some tc →
      toLowerStr tc = "upper".data →
      textTransformDecl s = some "  text-transform: uppercase;".data)
    ∧ (∀ (s : TextStyle) (tc : Str), s.textCase = some tc →
      toLowerStr tc = "lowercase".data →
      textTransformDecl s = some "  text-transform: lowercase;".data)
    ∧ (∀ (s : TextStyle) (tc : Str), s.textCase = some tc →
      toLowerStr tc = "title".data →
      textTransformDecl s = some "  text-transform: capitalize;".data)
    ∧ (∀ (i w f : List (Str × Str)) (s : TextStyle) (d : Str),
      textTransformDecl s = some d → d ∈ textStyleDecls i w f s)
    ∧ (∀ (i w f : List (Str × Str)) (s : TextStyle) (d : Str),
      textDecorationDecl s = some d → d ∈ textStyleDecls i w f s) := by
  refine ⟨?_, ?_, ?_, ?_, ?_, ?_, ?_⟩
  · intro s tc h hl
    cases tc with
    | nil =>
      have hts : textTransformOf s = none := by simp [textTransformOf, h]
      simp [textTransformDecl, hts]
    | cons c rest =>
      have hts : textTransformOf s = some (toLowerStr (c :: rest)) := by
        simp [textTransformOf, h]
      rw [hl] at hts
      simp only [textTransformDecl, hts]
      decide
  · intro s td h hl
    cases td with
    | nil => exact absurd hl (by decide)
    | cons c rest =>
      have hts : textDecorationOf s = some (toLowerStr (c :: rest)) := by
        simp [textDecorationOf, h]
      rw [hl] at hts
      simp only [textDecorationDecl, hts]
      decide
  · intro s tc h hl
    cases tc with
    | nil => exact absurd hl (by decide)
    | cons c rest =>
      have hts : textTransformOf s = some (toLowerStr (c :: rest)) := by
        simp [textTransformOf, h]
      rw [hl] at hts
      simp only [textTransformDecl, hts]
      decide
  · intro s tc h hl
    cases tc with
    | nil => exact absurd hl (by decide)
    | cons c rest =>
      have hts : textTransformOf s = some (toLowerStr (c :: rest)) := by
        simp [textTransformOf, h]
      rw [hl] at hts
      simp only [textTransformDecl, hts]
      decide
  · intro s tc h hl
    cases tc with
    | nil => exact absurd hl (by decide)
    | cons c rest =>
      have hts : textTransformOf s = some (toLowerStr (c :: rest)) := by
        simp [textTransformOf, h]
      rw [hl] at hts
      simp only [textTransformDecl, hts]
      decide
  · intro i w f s d h
    simp [textStyleDecls, optToList, h]
  · intro i w f s d h
    simp [textStyleDecls, optToList, h]

/-- Witness for claim C9 at concrete inputs. -/
theorem c9_textCaseMapping_witness :
    textTransformDecl { textCase := some "Original".data } = none
    ∧ textDecorationDecl { textDecoration := some "None".data } = none
    ∧ textTransformDecl { textCase := some "UPPER".data }
        = some "  text-transform: uppercase;".data
    ∧ textTransformDecl { textCase := some "lowercase".data }
        = some "  text-transform: lowercase;".data
    ∧ textTransformDecl { textCase := some "TITLE".data }
        = some "  text-transform: capitalize;".data
    ∧ "  text-transform: uppercase;".data
        ∈ textStyleDecls [] [] [] { textCase := some "upper".data } :=
  ⟨c9_textCaseMapping.1 _ "Original".data rfl (by decide),
   c9_textCaseMapping.2.1 _ "None".data rfl (by decide),
   c9_textCaseMapping.2.2.1 _ "UPPER".data rfl (by decide),
   c9_textCaseMapping.2.2.2.1 _ "lowercase".data rfl (by decide),
   c9_textCaseMapping.2.2.2.2.1 _ "TITLE".data rfl (by decide),
   c9_textCaseMapping.2.2.2.2.2.1 [] [] []
     { textCase := some "upper".data } _
     (c9_textCaseMapping.2.2.1 { textCase := some "upper".data } "upper".data rfl (by decide))⟩

/-- The source's rounding helper computes exactly the spec's half-up
one-decimal rendering. -/
theorem to1Smart_eq_halfUpSpec (q : JsNum) : to1Smart q = halfUpOneDecimalSpec q := by
  unfold to1Smart halfUpOneDecimalSpec jsRound JsNum.mul
  have e1 : (2 * (q.num * 10) + ((q.den * 1 : Nat) : Int)) = 20 * q.num + (q.den : Int) := by
    push_cast; ring
  have e2 : (2 * ((q.den * 1 : Nat) : Int)) = 2 * (q.den : Int) := by
    push_cast; ring
  simp only [e1, e2]

/-- Claim C4 (amended): with unit "px" and a number-like declared type a
finite number renders as its half-up one-decimal value followed by "px";
with unit "none" the bare number is rendered unrounded (its exact string
form); the red color with full alpha renders as rgba(255, 0, 0, 1.0). -/
theorem c4_formatValueAmended :
    (∀ (q : JsNum) (rt : Str) (pref : Bool) (idToName : List (Str × Str)),
      0 < q.den → NUMBER_LIKE_TYPES.contains (toUpperStr rt) = true →
      formatValue (some (.num q)) rt "px".data pref idToName
        = halfUpOneDecimalSpec q ++ "px".data)
    ∧ (∀ (q : JsNum) (rt : Str) (pref : Bool) (idToName : List (Str × Str)),
      NUMBER_LIKE_TYPES.contains (toUpperStr rt) = true →
      formatValue (some (.num q)) rt "none".data pref idToName = jsNumToString q)
    ∧ (∀ (rt : Str) (pref : Bool) (idToName : List (Str × Str)),
      toUpperStr rt = "COLOR".data →
      formatValue
        (some (.color (some ⟨1, 1⟩) (some ⟨0, 1⟩) (some ⟨0, 1⟩) (some ⟨1, 1⟩)))
        rt "px".data pref idToName
        = "rgba(255, 0, 0, 1.0)".data) := by
  refine ⟨?_, ?_, ?_⟩
  · intro q rt pref idToName _ h2
    have hrgb : hasNumericRGB (some (.num q)) = false := rfl
    have hcol : ¬(toUpperStr rt = "COLOR".data ∧ hasNumericRGB (some (.num q)) = true) := by
      intro hc; rw [hrgb] at hc; exact absurd hc.2 (by decide)
    simp only [formatValue, jsToNumber]
    rw [if_neg hcol, if_pos (Or.inl h2), if_neg (by decide)]
    rw [to1Smart_eq_halfUpSpec]
  · intro q rt pref idToName h2
    have hrgb : hasNumericRGB (some (.num q)) = false := rfl
    have hcol : ¬(toUpperStr rt = "COLOR".data ∧ hasNumericRGB (some (.num q)) = true) := by
      intro hc; rw [hrgb] at hc; exact absurd hc.2 (by decide)
    simp only [formatValue, jsToNumber]
    rw [if_neg hcol, if_pos (Or.inl h2), if_pos (by decide)]
  · intro rt pref idToName h
    simp only [formatValue]
    rw [if_pos ⟨h, by decide⟩]
    decide

/-- Witness for claim C4 at concrete inputs. -/
theorem c4_formatValueAmended_witness :
    formatValue (some (.num ⟨25, 10⟩)) "SPACING".data "px".data false []
      = halfUpOneDecimalSpec ⟨25, 10⟩ ++ "px".data
    ∧ formatValue (some (.num ⟨25, 10⟩)) "NUMBER".data "none".data false []
      = jsNumToString ⟨25, 10⟩
    ∧ formatValue
        (some (.color (some ⟨1, 1⟩) (some ⟨0, 1⟩) (some ⟨0, 1⟩) (some ⟨1, 1⟩)))
        "COLOR".data "px".data false [] = "rgba(255, 0, 0, 1.0)".data :=
  ⟨c4_formatValueAmended.1 ⟨25, 10⟩ "SPACING".data false [] (by decide) (by decide),
   c4_formatValueAmended.2.1 ⟨25, 10⟩ "NUMBER".data false [] (by decide),
   c4_formatValueAmended.2.2 "COLOR".data false [] (by decide)⟩

/-- Counterexample for claim C4 as stated: with unit "none" the code
renders 1.25 unrounded as "1.25", not the claimed half-up rounded "1.3". -/
theorem c4_noneUnitNotRounded :
    formatValue (some (.num ⟨5, 4⟩)) "NUMBER".data "none".data false [] = "1.25".data
    ∧ halfUpOneDecimalSpec ⟨5, 4⟩ = "1.3".data
    ∧ "1.25".data ≠ "1.3".data := by
  decide

/-- A nonempty list has a false isEmpty flag. -/
theorem isEmpty_false_of_ne_nil {l : Str} (h : l ≠ []) : l.isEmpty = false := by
  cases l with
  | nil => exact absurd rfl h
  | cons a t => rfl

/-- The resolver returns every non-alias value unchanged at any fuel. -/
theorem setHas_false_iff (s : List Str) (k : Str) : setHas s k = false ↔ k ∉ s := by
  unfold setHas
  rw [Bool.eq_false_iff]
  exact not_congr List.elem_iff

theorem resolveGo_notAlias (varById : List (Str × Variable)) (modeId : Option Str)
    (fuel : Nat) (v : Option Value) (seen : List Str) (h : isAliasO v = false) :
    resolveGo varById modeId fuel v seen = v := by
  cases v with
  | none => simp only [resolveGo]
  | some val =>
    cases val with
    | «alias» a => exact absurd h (by simp [isAliasO])
    | color r g b a => simp only [resolveGo]
    | num n => simp only [resolveGo]
    | str s => simp only [resolveGo]
    | bool b => simp only [resolveGo]
    | unitVal u w => simp only [resolveGo]

/-- Adding one element to a seen-set cannot make membership of a different
absent element true. -/
theorem setHas_setAdd_ne (seen : List Str) (i k : Str) (hne : k ≠ i)
    (h : setHas seen k = false) : setHas (setAdd seen i) k = false := by
  rw [setHas_false_iff] at h
  unfold setAdd
  split
  · rw [setHas_false_iff]; exact h
  · rw [setHas_false_iff]
    simp only [List.mem_append, List.mem_singleton]
    rintro (hm | hm)
    · exact h hm
    · exact hne hm

/-- Following an acyclic chain with enough fuel ends at the chain's
terminal value. -/
theorem resolveGo_chainTo (varById : List (Str × Variable)) (modeId : Option Str)
    (rest : List Str) :
    ∀ (i : Str) (term : Option Value) (seen : List Str) (fuel : Nat),
      ChainTo varById modeId (i :: rest) term →
      isAliasO term = false →
      (i :: rest).Nodup →
      (∀ j ∈ i :: rest, setHas seen j = false) →
      (i :: rest).length ≤ fuel →
      resolveGo varById modeId fuel (some (.alias i)) seen = term := by
  induction rest with
  | nil =>
    intro i term seen fuel hchain hterm _ hseen hfuel
    obtain ⟨hi, t, hlook, htid, hmode⟩ := hchain
    cases fuel with
    | zero => simp at hfuel
    | succ f =>
      simp only [resolveGo, hlook, htid, Option.getD_some]
      rw [if_neg (fun hc => by
        rw [hseen i (List.mem_singleton.mpr rfl)] at hc
        exact absurd hc.2 (by simp))]
      rw [if_neg (by simp [isEmpty_false_of_ne_nil hi]), hmode,
        resolveGo_notAlias varById modeId f term _ hterm]
  | cons j rest ih =>
    intro i term seen fuel hchain hterm hnodup hseen hfuel
    obtain ⟨hi, t, hlook, htid, hmode, hchain'⟩ := hchain
    cases fuel with
    | zero => simp at hfuel
    | succ f =>
      simp only [resolveGo, hlook, htid, Option.getD_some]
      rw [if_neg (fun hc => by
        rw [hseen i (by simp)] at hc
        exact absurd hc.2 (by simp))]
      rw [if_neg (by simp [isEmpty_false_of_ne_nil hi]), hmode]
      have hnodup' : (j :: rest).Nodup := hnodup.of_cons
      have hinotin : i ∉ j :: rest := (List.nodup_cons.mp hnodup).1
      refine ih j term (setAdd seen i) f hchain' hterm hnodup' ?_ (by simp at hfuel ⊢; omega)
      intro k hk
      exact setHas_setAdd_ne seen i k (fun he => hinotin (he ▸ hk)) (hseen k (List.mem_cons_of_mem i hk))

/-- Every link of a chain has a target whose selected value is either the
chain's terminal or an alias to another chain member. -/
theorem chainTo_elem (varById : List (Str × Variable)) (modeId : Option Str) :
    ∀ (ids : List Str) (term : Option Value), ChainTo varById modeId ids term →
      ∀ j ∈ ids, ∃ t, mapGet varById j = some t ∧ t.id = some j ∧ j ≠ [] ∧
        (aliasTargetModeVal t modeId = term
          ∨ ∃ k, k ∈ ids ∧ aliasTargetModeVal t modeId = some (.alias k)) := by
  intro ids
  induction ids with
  | nil => intro term h; cases h
  | cons i rest ih =>
    intro term hchain j hj
    cases rest with
    | nil =>
      obtain ⟨hi, t, hlook, htid, hmode⟩ := hchain
      rcases List.mem_singleton.mp hj with rfl
      exact ⟨t, hlook, htid, hi, Or.inl hmode⟩
    | cons j' rest' =>
      obtain ⟨hi, t, hlook, htid, hmode, hchain'⟩ := hchain
      rcases List.mem_cons.mp hj with rfl | hj'
      · exact ⟨t, hlook, htid, hi, Or.inr ⟨j', by simp, hmode⟩⟩
      · obtain ⟨t', h1, h2, h3, h4⟩ := ih term hchain' j hj'
        refine ⟨t', h1, h2, h3, ?_⟩
        rcases h4 with h4 | ⟨k, hk, h5⟩
        · exact Or.inl h4
        · exact Or.inr ⟨k, List.mem_cons_of_mem i hk, h5⟩

/-- Inside a family of ids each of which aliases to another member, the
resolver always returns some alias value, at any fuel. -/
theorem resolveGo_cycle (varById : List (Str × Variable)) (modeId : Option Str)
    (ids : List Str)
    (hinv : ∀ j ∈ ids, ∃ t, mapGet varById j = some t ∧ t.id = some j ∧ j ≠ [] ∧
      ∃ k, k ∈ ids ∧ aliasTargetModeVal t modeId = some (.alias k)) :
    ∀ (fuel : Nat) (i : Str) (seen : List Str), i ∈ ids →
      ∃ k, resolveGo varById modeId fuel (some (.alias i)) seen = some (.alias k) := by
  intro fuel
  induction fuel with
  | zero => intro i seen _; exact ⟨i, rfl⟩
  | succ f ih =>
    intro i seen hi
    obtain ⟨t, hlook, htid, hne, k, hk, hmode⟩ := hinv i hi
    simp only [resolveGo, hlook, htid, Option.getD_some]
    by_cases hseen : setHas seen i = true
    · exact ⟨i, by rw [if_pos ⟨isEmpty_false_of_ne_nil hne, hseen⟩]⟩
    · rw [if_neg (fun hc => hseen hc.2)]
      rw [if_neg (by simp [isEmpty_false_of_ne_nil hne]), hmode]
      exact ih k _ hk

/-- Claim C2: an acyclic alias chain of length at most 20 resolves to its
terminal non-alias value, and a cyclic chain of any length resolves to an
(unresolved) alias value instead of diverging; the resolver is a total
function by construction, its recursion bounded by the depth budget. -/
theorem c2_aliasResolution :
    (∀ (varById : List (Str × Variable)) (modeId : Option Str) (i : Str)
       (rest : List Str) (term : Option Value),
      ChainTo varById modeId (i :: rest) term →
      isAliasO term = false →
      (i :: rest).Nodup →
      (i :: rest).length ≤ 20 →
      resolveAliasChainToPrimitive (some (.alias i)) modeId varById [] 0 = term)
    ∧ (∀ (varById : List (Str × Variable)) (modeId : Option Str) (i : Str)
        (rest : List Str),
      ChainTo varById modeId (i :: rest) (some (.alias i)) →
      ∃ k, resolveAliasChainToPrimitive (some (.alias i)) modeId varById [] 0
            = some (.alias k)) := by
  constructor
  · intro varById modeId i rest term hchain hterm hnodup hlen
    unfold resolveAliasChainToPrimitive
    exact resolveGo_chainTo varById modeId rest i term [] (21 - 0) hchain hterm hnodup
      (fun j _ => rfl) (by omega)
  · intro varById modeId i rest hchain
    unfold resolveAliasChainToPrimitive
    refine resolveGo_cycle varById modeId (i :: rest) ?_ (21 - 0) i [] (by simp)
    intro j hj
    obtain ⟨t, h1, h2, h3, h4⟩ := chainTo_elem varById modeId (i :: rest) _ hchain j hj
    refine ⟨t, h1, h2, h3, ?_⟩
    rcases h4 with h4 | ⟨k, hk, h5⟩
    · exact ⟨i, by simp, h4⟩
    · exact ⟨k, hk, h5⟩

/-- Witness for claim C2: the concrete chain a -> b -> 4 resolves to 4, and
the self-cycle c -> c resolves to an alias value. -/
theorem c2_aliasResolution_witness :
    resolveAliasChainToPrimitive (some (.alias "a".data)) (some "m1".data) c2Index [] 0
      = some (.num ⟨4, 1⟩)
    ∧ ∃ k, resolveAliasChainToPrimitive (some (.alias "c".data)) (some "m1".data) c2CycIndex [] 0
        = some (.alias k) :=
  ⟨c2_aliasResolution.1 c2Index (some "m1".data) "a".data ["b".data] (some (.num ⟨4, 1⟩))
      ⟨by decide, c2VarA, by decide, by decide, by decide,
        by decide, c2VarB, by decide, by decide, by decide⟩
      (by decide) (by decide) (by decide),
   c2_aliasResolution.2 c2CycIndex (some "m1".data) "c".data []
      ⟨by decide, c2CycVar, by decide, by decide, by decide⟩⟩

/-! ### Character-level facts for the identifier derivers -/

/-- Characters are equal exactly when their code points are. -/
theorem char_eq_iff_toNat {c d : Char} : c = d ↔ c.toNat = d.toNat := by
  constructor
  · intro h; rw [h]
  · intro h
    have hc := Char.ofNat_toNat c
    rw [h, Char.ofNat_toNat] at hc
    exact hc.symm

/-- Valid code points round-trip through Char.ofNat. -/
theorem toNat_ofNat_lt {n : Nat} (h : n < 55296) : (Char.ofNat n).toNat = n := by
  have hv : n.isValidChar := Or.inl h
  simp only [Char.ofNat, hv, dite_true, Char.ofNatAux, Char.toNat]
  rfl

/-- The code point computed by the ASCII lowercase map. -/
theorem toNat_jsToLower (c : Char) :
    (jsToLower c).toNat = if 65 ≤ c.toNat ∧ c.toNat ≤ 90 then c.toNat + 32 else c.toNat := by
  unfold jsToLower jsIsUpper
  by_cases h : 65 ≤ c.toNat ∧ c.toNat ≤ 90
  · rw [if_pos (by simp [h.1, h.2]), if_pos h]
    exact toNat_ofNat_lt (by omega)
  · rw [if_neg (by simpa [Bool.and_eq_true, decide_eq_true_iff] using h), if_neg h]

/-- The lowercase map never yields an uppercase letter. -/
theorem jsIsUpper_jsToLower (c : Char) : jsIsUpper (jsToLower c) = false := by
  have h := toNat_jsToLower c
  unfold jsIsUpper
  by_cases hc : 65 ≤ c.toNat ∧ c.toNat ≤ 90
  · rw [if_pos hc] at h
    have h2 : ¬(c.toNat + 32 ≤ 90) := by omega
    simp [h, h2]
  · rw [if_neg hc] at h
    by_cases h65 : 65 ≤ c.toNat
    · have h90 : ¬(c.toNat ≤ 90) := fun hb => hc ⟨h65, hb⟩
      simp [h, h90]
    · simp [h, h65]

/-- Characters that are not uppercase are fixed by the lowercase map. -/
theorem jsToLower_eq_self {c : Char} (h : jsIsUpper c = false) : jsToLower c = c := by
  unfold jsToLower
  rw [h]
  rfl

/-- The lowercase map neither creates nor destroys hyphens. -/
theorem jsToLower_dash_iff (c : Char) : jsToLower c = '-' ↔ c = '-' := by
  rw [char_eq_iff_toNat, char_eq_iff_toNat]
  have h := toNat_jsToLower c
  have hd : ('-').toNat = 45 := by decide
  rw [hd]
  by_cases hc : 65 ≤ c.toNat ∧ c.toNat ≤ 90
  · rw [if_pos hc] at h
    rw [h]
    omega
  · rw [if_neg hc] at h
    rw [h]

/-- The lowercase map preserves "not a slash or whitespace". -/
theorem isSlashOrSpace_jsToLower {c : Char} (h : isSlashOrSpace c = false) :
    isSlashOrSpace (jsToLower c) = false := by
  have ht := toNat_jsToLower c
  unfold isSlashOrSpace jsIsSpace at h ⊢
  simp only [Bool.or_eq_false_iff, decide_eq_false_iff_not] at h ⊢
  by_cases hc : 65 ≤ c.toNat ∧ c.toNat ≤ 90
  · rw [if_pos hc] at ht
    rw [ht]
    omega
  · rw [if_neg hc] at ht
    rw [ht]
    omega

/-- Characters inside the permissive `[A-Za-z0-9_-]` class are never
slashes or whitespace. -/
theorem isSlashOrSpace_of_cssWord {c : Char} (h : notCssWordChar c = false) :
    isSlashOrSpace c = false := by
  unfold notCssWordChar jsIsUpper jsIsLower jsIsDigit at h
  unfold isSlashOrSpace jsIsSpace
  simp only [Bool.not_eq_false', Bool.or_eq_true, Bool.and_eq_true,
    decide_eq_true_iff] at h
  simp only [Bool.or_eq_false_iff, decide_eq_false_iff_not]
  omega

/-- A hyphen is not a slash or whitespace. -/
theorem isSlashOrSpace_dash : isSlashOrSpace '-' = false := by decide

/-- A hyphen is inside the permissive word class. -/
theorem notCssWordChar_dash : notCssWordChar '-' = false := by decide

/-- A hyphen is not an uppercase letter. -/
theorem jsIsUpper_dash : jsIsUpper '-' = false := by decide

/-! ### List-level facts for the identifier derivers -/

/-- Every character of a run-replacement output fails the replaced class,
provided the hyphen itself is outside the class. -/
theorem replaceRuns_chars {p : Char → Bool} (hp : p '-' = false) :
    ∀ (s : Str) (b : Bool) (c : Char), c ∈ replaceRuns p s b → p c = false := by
  intro s
  induction s with
  | nil => intro b c h; cases h
  | cons a rest ih =>
    intro b c h
    unfold replaceRuns at h
    by_cases ha : p a = true
    · rw [if_pos ha] at h
      cases b with
      | true => exact ih true c h
      | false =>
        rcases List.mem_cons.mp h with rfl | h'
        · exact hp
        · exact ih true c h'
    · rw [if_neg ha] at h
      rcases List.mem_cons.mp h with rfl | h'
      · exact Bool.not_eq_true _ ▸ ha
      · exact ih false c h'

/-- Every character of a run-replacement output is an original character or
a hyphen. -/
theorem mem_replaceRuns {p : Char → Bool} :
    ∀ (s : Str) (b : Bool) (c : Char), c ∈ replaceRuns p s b → c ∈ s ∨ c = '-' := by
  intro s
  induction s with
  | nil => intro b c h; cases h
  | cons a rest ih =>
    intro b c h
    unfold replaceRuns at h
    by_cases ha : p a = true
    · rw [if_pos ha] at h
      cases b with
      | true =>
        rcases ih true c h with h' | h'
        · exact Or.inl (List.mem_cons_of_mem a h')
        · exact Or.inr h'
      | false =>
        rcases List.mem_cons.mp h with rfl | h'
        · exact Or.inr rfl
        · rcases ih true c h' with h'' | h''
          · exact Or.inl (List.mem_cons_of_mem a h'')
          · exact Or.inr h''
    · rw [if_neg ha] at h
      rcases List.mem_cons.mp h with rfl | h'
      · exact Or.inl (by simp)
      · rcases ih false c h' with h'' | h''
        · exact Or.inl (List.mem_cons_of_mem a h'')
        · exact Or.inr h''

/-- Run replacement does nothing when no character is in the class. -/
theorem replaceRuns_nop {p : Char → Bool} :
    ∀ (s : Str), (∀ c ∈ s, p c = false) → ∀ b, replaceRuns p s b = s := by
  intro s
  induction s with
  | nil => intro _ b; rfl
  | cons a rest ih =>
    intro h b
    unfold replaceRuns
    rw [if_neg (by simp [h a (by simp)])]
    rw [ih (fun c hc => h c (List.mem_cons_of_mem a hc)) false]

/-- Every character of the uppercase-dashing output is an original
character or a hyphen. -/
theorem mem_dashBeforeUpper :
    ∀ (s : Str) (c : Char), c ∈ dashBeforeUpper s → c ∈ s ∨ c = '-' := by
  intro s
  induction s with
  | nil => intro c h; cases h
  | cons a rest ih =>
    intro c h
    unfold dashBeforeUpper at h
    by_cases ha : jsIsUpper a = true
    · rw [if_pos ha] at h
      rcases List.mem_cons.mp h with rfl | h'
      · exact Or.inr rfl
      · rcases List.mem_cons.mp h' with rfl | h''
        · exact Or.inl (by simp)
        · rcases ih c h'' with h3 | h3
          · exact Or.inl (List.mem_cons_of_mem a h3)
          · exact Or.inr h3
    · rw [if_neg ha] at h
      rcases List.mem_cons.mp h with rfl | h'
      · exact Or.inl (by simp)
      · rcases ih c h' with h3 | h3
        · exact Or.inl (List.mem_cons_of_mem a h3)
        · exact Or.inr h3

/-- Uppercase-dashing does nothing when no character is uppercase. -/
theorem dashBeforeUpper_nop :
    ∀ (s : Str), (∀ c ∈ s, jsIsUpper c = false) → dashBeforeUpper s = s := by
  intro s
  induction s with
  | nil => intro _; rfl
  | cons a rest ih =>
    intro h
    unfold dashBeforeUpper
    rw [if_neg (by simp [h a (by simp)])]
    rw [ih (fun c hc => h c (List.mem_cons_of_mem a hc))]

/-- Mapping a function that fixes every member is the identity. -/
theorem map_eq_self_of_fix {f : Char → Char} :
    ∀ (s : Str), (∀ c ∈ s, f c = c) → s.map f = s := by
  intro s
  induction s with
  | nil => intro _; rfl
  | cons a rest ih =>
    intro h
    simp only [List.map_cons]
    rw [h a (by simp), ih (fun c hc => h c (List.mem_cons_of_mem a hc))]

/-- The tail of a double-hyphen-free string is double-hyphen-free. -/
theorem noDoubleDash_tail {c : Char} {rest : Str}
    (h : noDoubleDash (c :: rest) = true) : noDoubleDash rest = true := by
  cases rest with
  | nil => rfl
  | cons d t =>
    simp only [noDoubleDash, Bool.and_eq_true] at h
    exact h.2

/-- Cons characterization of the double-hyphen-free test. -/
theorem noDoubleDash_cons (c : Char) (rest : Str) :
    noDoubleDash (c :: rest) = (!(decide (c = '-') && headIsDash rest) && noDoubleDash rest) := by
  cases rest with
  | nil => simp [noDoubleDash, headIsDash]
  | cons d t => simp [noDoubleDash, headIsDash]

/-- Hyphen-run collapsing produces a double-hyphen-free string; when the
run flag is set the output also cannot start with a hyphen. -/
theorem collapse_shape :
    ∀ (s : Str),
      noDoubleDash (replaceRuns (fun c => c = '-') s true) = true
      ∧ headIsDash (replaceRuns (fun c => c = '-') s true) = false
      ∧ noDoubleDash (replaceRuns (fun c => c = '-') s false) = true := by
  intro s
  induction s with
  | nil => exact ⟨rfl, rfl, rfl⟩
  | cons a rest ih =>
    by_cases ha : a = '-'
    · refine ⟨?_, ?_, ?_⟩
      · unfold replaceRuns
        rw [if_pos (by simp [ha])]
        exact ih.1
      · unfold replaceRuns
        rw [if_pos (by simp [ha])]
        exact ih.2.1
      · unfold replaceRuns
        rw [if_pos (by simp [ha])]
        rw [if_neg (by decide : ¬(false = true))]
        rw [noDoubleDash_cons]
        simp [ih.2.1, ih.1]
    · refine ⟨?_, ?_, ?_⟩
      · unfold replaceRuns
        rw [if_neg (by simp [ha])]
        rw [noDoubleDash_cons]
        simp [ha, ih.2.2]
      · unfold replaceRuns
        rw [if_neg (by simp [ha])]
        simp [headIsDash, ha]
      · unfold replaceRuns
        rw [if_neg (by simp [ha])]
        rw [noDoubleDash_cons]
        simp [ha, ih.2.2]

/-- Hyphen-run collapsing is the identity on double-hyphen-free strings
(for the set flag, additionally those not starting with a hyphen). -/
theorem collapse_nop :
    ∀ (s : Str), noDoubleDash s = true →
      (headIsDash s = false → replaceRuns (fun c => c = '-') s true = s)
      ∧ replaceRuns (fun c => c = '-') s false = s := by
  intro s
  induction s with
  | nil => intro _; exact ⟨fun _ => rfl, rfl⟩
  | cons a rest ih =>
    intro h
    have hrest := noDoubleDash_tail h
    by_cases ha : a = '-'
    · have hhr : headIsDash rest = false := by
        rw [noDoubleDash_cons] at h
        simp only [Bool.and_eq_true] at h
        simpa [ha] using h.1
      constructor
      · intro hh
        exact absurd hh (by simp [headIsDash, ha])
      · unfold replaceRuns
        rw [if_pos (by simp [ha])]
        rw [(ih hrest).1 hhr, ha]
        rfl
    · constructor
      · intro _
        unfold replaceRuns
        rw [if_neg (by simp [ha])]
        rw [(ih hrest).2]
      · unfold replaceRuns
        rw [if_neg (by simp [ha])]
        rw [(ih hrest).2]

/-- Dropping leading hyphens leaves a string that does not start with a
hyphen. -/
theorem headIsDash_dropWhile :
    ∀ (s : Str), headIsDash (s.dropWhile (fun c => decide (c = '-'))) = false := by
  intro s
  induction s with
  | nil => rfl
  | cons a rest ih =>
    by_cases ha : a = '-'
    · rw [List.dropWhile_cons_of_pos (by simp [ha])]
      exact ih
    · rw [List.dropWhile_cons_of_neg (by simp [ha])]
      simp [headIsDash, ha]

/-- Dropping trailing characters yields the empty string or keeps the
original head. -/
theorem dropTrailingIf_head (p : Char → Bool) (c : Char) (rest : Str) :
    dropTrailingIf p (c :: rest) = [] ∨ ∃ r, dropTrailingIf p (c :: rest) = c :: r := by
  unfold dropTrailingIf
  cases hr : dropTrailingIf p rest with
  | nil =>
    by_cases hc : p c = true
    · rw [if_pos hc]; exact Or.inl rfl
    · rw [if_neg hc]; exact Or.inr ⟨[], rfl⟩
  | cons x xs => exact Or.inr ⟨x :: xs, rfl⟩

/-- Dropping trailing characters preserves "does not start with a
hyphen". -/
theorem headIsDash_dropTrailingIf (p : Char → Bool) :
    ∀ (s : Str), headIsDash s = false → headIsDash (dropTrailingIf p s) = false := by
  intro s h
  cases s with
  | nil => rfl
  | cons c rest =>
    rcases dropTrailingIf_head p c rest with he | ⟨r, he⟩
    · rw [he]; rfl
    · rw [he]
      simpa [headIsDash] using h

/-- Dropping trailing hyphens leaves a string that does not end with a
hyphen. -/
theorem lastIsDash_dropTrailingIf :
    ∀ (s : Str), lastIsDash (dropTrailingIf (fun c => decide (c = '-')) s) = false := by
  intro s
  induction s with
  | nil => rfl
  | cons c rest ih =>
    unfold dropTrailingIf
    cases hr : dropTrailingIf (fun c => decide (c = '-')) rest with
    | nil =>
      by_cases hc : c = '-'
      · rw [if_pos (by simp [hc])]; rfl
      · rw [if_neg (by simp [hc])]
        simp [lastIsDash, hc]
    | cons x xs =>
      rw [hr] at ih
      show lastIsDash (c :: x :: xs) = false
      simpa [lastIsDash] using ih

/-- Dropping leading characters preserves freedom from double hyphens. -/
theorem noDoubleDash_dropWhile (q : Char → Bool) :
    ∀ (s : Str), noDoubleDash s = true → noDoubleDash (s.dropWhile q) = true := by
  intro s
  induction s with
  | nil => intro _; rfl
  | cons a rest ih =>
    intro h
    by_cases ha : q a = true
    · rw [List.dropWhile_cons_of_pos ha]
      exact ih (noDoubleDash_tail h)
    · rw [List.dropWhile_cons_of_neg ha]
      exact h

/-- Dropping trailing characters preserves freedom from double hyphens. -/
theorem noDoubleDash_dropTrailingIf (p : Char → Bool) :
    ∀ (s : Str), noDoubleDash s = true → noDoubleDash (dropTrailingIf p s) = true := by
  intro s
  induction s with
  | nil => intro _; rfl
  | cons c rest ih =>
    intro h
    unfold dropTrailingIf
    cases hr : dropTrailingIf p rest with
    | nil =>
      by_cases hc : p c = true
      · rw [if_pos hc]; rfl
      · rw [if_neg hc]; rfl
    | cons x xs =>
      rw [noDoubleDash_cons]
      have hnd : noDoubleDash (x :: xs) = true := by
        rw [← hr]
        exact ih (noDoubleDash_tail h)
      cases rest with
      | nil => simp [dropTrailingIf] at hr
      | cons d rest' =>
        have hxd : x = d := by
          rcases dropTrailingIf_head p d rest' with he | ⟨r, he⟩
          · rw [he] at hr; cases hr
          · rw [he] at hr
            injection hr with h1 _
            exact h1.symm
        have hpair : (!(decide (c = '-') && decide (d = '-'))) = true := by
          simp only [noDoubleDash, Bool.and_eq_true] at h
          exact h.1
        rw [hxd] at hnd
        simp only [headIsDash, hxd, hnd, Bool.and_true]
        exact hpair

/-- Members of a head-dropped string are members of the original. -/
theorem mem_dropWhile (q : Char → Bool) :
    ∀ (s : Str) (c : Char), c ∈ s.dropWhile q → c ∈ s := by
  intro s
  induction s with
  | nil => intro c h; exact h
  | cons a rest ih =>
    intro c h
    by_cases ha : q a = true
    · rw [List.dropWhile_cons_of_pos ha] at h
      exact List.mem_cons_of_mem a (ih c h)
    · rw [List.dropWhile_cons_of_neg ha] at h
      exact h

/-- Members of a tail-dropped string are members of the original. -/
theorem mem_dropTrailingIf (p : Char → Bool) :
    ∀ (s : Str) (c : Char), c ∈ dropTrailingIf p s → c ∈ s := by
  intro s
  induction s with
  | nil => intro c h; exact h
  | cons a rest ih =>
    intro c h
    unfold dropTrailingIf at h
    cases hr : dropTrailingIf p rest with
    | nil =>
      rw [hr] at h
      by_cases ha : p a = true
      · rw [if_pos ha] at h; cases h
      · rw [if_neg ha] at h
        rcases List.mem_singleton.mp h with rfl
        simp
    | cons x xs =>
      rw [hr] at h
      rcases List.mem_cons.mp h with rfl | h'
      · simp
      · exact List.mem_cons_of_mem a (ih c (hr ▸ h'))

/-- Lowercasing preserves freedom from double hyphens. -/
theorem noDoubleDash_map_toLower :
    ∀ (s : Str), noDoubleDash s = true → noDoubleDash (s.map jsToLower) = true := by
  intro s
  induction s with
  | nil => intro _; rfl
  | cons a rest ih =>
    intro h
    simp only [List.map_cons]
    rw [noDoubleDash_cons]
    have hr := ih (noDoubleDash_tail h)
    simp only [hr, Bool.and_true]
    cases rest with
    | nil => simp [headIsDash]
    | cons b t =>
      have hna : ¬(a = '-' ∧ b = '-') := by
        intro hab
        simp only [noDoubleDash, headIsDash, hab.1, hab.2] at h
        simp at h
      simp only [List.map_cons, headIsDash]
      by_cases ha : a = '-'
      · have hb : ¬ b = '-' := fun hb => hna ⟨ha, hb⟩
        simp [jsToLower_dash_iff, hb]
      · simp [jsToLower_dash_iff, ha]

/-- Dropping trailing hyphens is the identity on strings that do not end
with a hyphen. -/
theorem dropTrailingIf_nop :
    ∀ (s : Str), lastIsDash s = false →
      dropTrailingIf (fun c => decide (c = '-')) s = s := by
  intro s
  induction s with
  | nil => intro _; rfl
  | cons c rest ih =>
    intro h
    cases rest with
    | nil =>
      unfold dropTrailingIf
      rw [if_neg (by simpa [lastIsDash] using h)]
      rfl
    | cons d t =>
      have hlast : lastIsDash (d :: t) = false := by simpa [lastIsDash] using h
      have ihr := ih hlast
      unfold dropTrailingIf
      cases hr : dropTrailingIf (fun c => decide (c = '-')) (d :: t) with
      | nil => rw [ihr] at hr; cases hr
      | cons x xs =>
        rw [ihr] at hr
        injection hr with h1 h2
        subst h1
        subst h2
        rfl

/-- Shape of every kebab derivation: no edge hyphens, no double hyphen, no
uppercase letter, no slash or whitespace. -/
theorem kebab_shape (s : Str) :
    headIsDash (kebab s) = false ∧ lastIsDash (kebab s) = false
    ∧ noDoubleDash (kebab s) = true
    ∧ ∀ c ∈ kebab s, jsIsUpper c = false ∧ isSlashOrSpace c = false := by
  have hD : noDoubleDash (toLowerStr (collapseDashes (dashBeforeUpper
      (replaceRuns isSlashOrSpace s false)))) = true :=
    noDoubleDash_map_toLower _ ((collapse_shape _).2.2)
  refine ⟨headIsDash_dropTrailingIf _ _ (headIsDash_dropWhile _),
          lastIsDash_dropTrailingIf _,
          noDoubleDash_dropTrailingIf _ _ (noDoubleDash_dropWhile _ _ hD), ?_⟩
  intro c hc
  have h1 : c ∈ toLowerStr (collapseDashes (dashBeforeUpper
      (replaceRuns isSlashOrSpace s false))) :=
    mem_dropWhile _ _ c (mem_dropTrailingIf _ _ c hc)
  obtain ⟨c0, hc0, rfl⟩ := List.mem_map.mp h1
  refine ⟨jsIsUpper_jsToLower c0, isSlashOrSpace_jsToLower ?_⟩
  rcases mem_replaceRuns _ _ _ hc0 with h2 | rfl
  · rcases mem_dashBeforeUpper _ _ h2 with h3 | rfl
    · exact replaceRuns_chars isSlashOrSpace_dash s false c0 h3
    · exact isSlashOrSpace_dash
  · exact isSlashOrSpace_dash

/-- Shape of every permissive derivation: no edge hyphens, no double
hyphen, only characters of the `[A-Za-z0-9_-]` class. -/
theorem toCssVarName_shape (s : Str) :
    headIsDash (toCssVarName s) = false ∧ lastIsDash (toCssVarName s) = false
    ∧ noDoubleDash (toCssVarName s) = true
    ∧ ∀ c ∈ toCssVarName s, notCssWordChar c = false := by
  by_cases hs : s = []
  · subst hs
    exact ⟨rfl, rfl, rfl, by intro c hc; cases hc⟩
  · have he : toCssVarName s = stripEdgeDashes (collapseDashes
        (replaceRuns notCssWordChar (replaceRuns isSlashOrSpace s false) false)) := by
      unfold toCssVarName
      rw [if_neg hs]
    rw [he]
    have hC : noDoubleDash (collapseDashes
        (replaceRuns notCssWordChar (replaceRuns isSlashOrSpace s false) false)) = true :=
      (collapse_shape _).2.2
    refine ⟨headIsDash_dropTrailingIf _ _ (headIsDash_dropWhile _),
            lastIsDash_dropTrailingIf _,
            noDoubleDash_dropTrailingIf _ _ (noDoubleDash_dropWhile _ _ hC), ?_⟩
    intro c hc
    have h1 : c ∈ collapseDashes
        (replaceRuns notCssWordChar (replaceRuns isSlashOrSpace s false) false) :=
      mem_dropWhile _ _ c (mem_dropTrailingIf _ _ c hc)
    rcases mem_replaceRuns _ _ _ h1 with h2 | rfl
    · exact replaceRuns_chars notCssWordChar_dash _ false c h2
    · exact notCssWordChar_dash

/-- Claim C7 (amended): strict kebab derivation never yields leading,
trailing or doubled hyphens, never an uppercase ASCII letter, and never a
slash or whitespace character; characters outside the lowercase
alphanumeric-hyphen set that are neither slashes, whitespace nor uppercase
(such as the underscore) pass through unchanged. -/
theorem c7_kebabShape :
    ∀ (s : Str), headIsDash (kebab s) = false ∧ lastIsDash (kebab s) = false
      ∧ noDoubleDash (kebab s) = true
      ∧ ∀ c ∈ kebab s, jsIsUpper c = false ∧ isSlashOrSpace c = false :=
  kebab_shape

/-- Witness for claim C7 at a concrete input and member. -/
theorem c7_kebabShape_witness :
    headIsDash (kebab "A/b_c".data) = false ∧ lastIsDash (kebab "A/b_c".data) = false
    ∧ noDoubleDash (kebab "A/b_c".data) = true
    ∧ (jsIsUpper 'a' = false ∧ isSlashOrSpace 'a' = false) :=
  ⟨(c7_kebabShape "A/b_c".data).1, (c7_kebabShape "A/b_c".data).2.1,
   (c7_kebabShape "A/b_c".data).2.2.1,
   (c7_kebabShape "A/b_c".data).2.2.2 'a' (by decide)⟩

/-- Counterexample for claim C7 as stated: the kebab derivation leaves an
underscore in its output, a character outside the claimed [a-z0-9-]
alphabet. -/
theorem c7_underscoreSurvives :
    kebab "a_b".data = "a_b".data ∧ '_' ∈ kebab "a_b".data
    ∧ jsIsLower '_' = false ∧ jsIsDigit '_' = false ∧ '_' ≠ '-' := by
  decide

/-- Claim C8: both identifier-derivation modes are idempotent. -/
theorem c8_derivationIdempotent :
    ∀ (s : Str), kebab (kebab s) = kebab s
      ∧ toCssVarName (toCssVarName s) = toCssVarName s := by
  intro s
  constructor
  · obtain ⟨hh, hl, hnd, hmem⟩ := kebab_shape s
    set X := kebab s with hX
    have h1 : replaceRuns isSlashOrSpace X false = X :=
      replaceRuns_nop _ (fun c hc => (hmem c hc).2) false
    have h2 : dashBeforeUpper X = X :=
      dashBeforeUpper_nop _ (fun c hc => (hmem c hc).1)
    have h3 : collapseDashes X = X := (collapse_nop _ hnd).2
    have h4 : toLowerStr X = X :=
      map_eq_self_of_fix _ (fun c hc => jsToLower_eq_self (hmem c hc).1)
    have h5 : X.dropWhile (fun c => decide (c = '-')) = X := by
      cases hk : X with
      | nil => rfl
      | cons a t =>
        rw [List.dropWhile_cons_of_neg]
        rw [hk] at hh
        simpa [headIsDash] using hh
    have h6 : dropTrailingIf (fun c => decide (c = '-')) X = X :=
      dropTrailingIf_nop _ hl
    show kebab X = X
    unfold kebab stripEdgeDashes
    rw [h1, h2]
    show dropTrailingIf _ ((toLowerStr (collapseDashes X)).dropWhile _) = X
    rw [h3, h4, h5, h6]
  · obtain ⟨hh, hl, hnd, hmem⟩ := toCssVarName_shape s
    set Y := toCssVarName s with hY
    by_cases hy : Y = []
    · rw [hy]
      rfl
    · have h1 : replaceRuns isSlashOrSpace Y false = Y :=
        replaceRuns_nop _ (fun c hc => isSlashOrSpace_of_cssWord (hmem c hc)) false
      have h2 : replaceRuns notCssWordChar Y false = Y :=
        replaceRuns_nop _ (fun c hc => hmem c hc) false
      have h3 : collapseDashes Y = Y := (collapse_nop _ hnd).2
      have h5 : Y.dropWhile (fun c => decide (c = '-')) = Y := by
        cases hk : Y with
        | nil => rfl
        | cons a t =>
          rw [List.dropWhile_cons_of_neg]
          rw [hk] at hh
          simpa [headIsDash] using hh
      have h6 : dropTrailingIf (fun c => decide (c = '-')) Y = Y :=
        dropTrailingIf_nop _ hl
      show toCssVarName Y = Y
      unfold toCssVarName stripEdgeDashes
      rw [if_neg hy, h1, h2, h3, h5, h6]

/-- Setting a key makes it present. -/
theorem mapGet_mapSet_self {α : Type} (m : List (Str × α)) (k : Str) (x : α) :
    mapGet (mapSet m k x) k = some x := by
  induction m with
  | nil => simp [mapSet, mapGet]
  | cons p rest ih =>
    obtain ⟨k', v'⟩ := p
    by_cases h : k' = k
    · simp [mapSet, h, mapGet]
    · simp [mapSet, h, mapGet, ih]

/-- Setting any key never removes another. -/
theorem isSome_mapGet_mapSet {α : Type} (m : List (Str × α)) (k k' : Str) (x : α)
    (h : (mapGet m k).isSome = true) : (mapGet (mapSet m k' x) k).isSome = true := by
  induction m with
  | nil => simp [mapGet] at h
  | cons p rest ih =>
    obtain ⟨a, b⟩ := p
    by_cases hak : a = k'
    · subst hak
      simp only [mapSet, if_pos rfl]
      simp only [mapGet] at h ⊢
      by_cases hk : a = k
      · simp [hk]
      · simpa [hk] using h
    · simp only [mapSet, if_neg hak]
      simp only [mapGet] at h ⊢
      by_cases hk : a = k
      · simp [hk]
      · simp only [if_neg hk] at h ⊢
        exact ih h

/-- One loop step of the weight-index builder never removes a key. -/
theorem weightIndexStep_isSome (idx : List (Str × Str)) (v : Variable) (k : Str)
    (h : (mapGet idx k).isSome = true) :
    (mapGet (weightIndexStep idx v) k).isSome = true := by
  unfold weightIndexStep
  split
  · exact h
  · dsimp only
    split
    · split
      · exact isSome_mapGet_mapSet _ _ _ _ (isSome_mapGet_mapSet _ _ _ _ h)
      · exact isSome_mapGet_mapSet _ _ _ _ h
    · exact h

/-- Folding more variables over the weight index never removes a key. -/
theorem foldl_weightIndexStep_isSome :
    ∀ (l : List Variable) (idx : List (Str × Str)) (k : Str),
      (mapGet idx k).isSome = true →
      (mapGet (l.foldl weightIndexStep idx) k).isSome = true := by
  intro l
  induction l with
  | nil => intro idx k h; exact h
  | cons v rest ih =>
    intro idx k h
    simp only [List.foldl_cons]
    exact ih _ _ (weightIndexStep_isSome idx v k h)

/-- A numeric variable whose last path segment normalizes to "semibold"
registers the "semibold" key in the weight index. -/
theorem weightIndexStep_sets_semibold (idx : List (Str × Str)) (v : Variable)
    (hname : v.name ≠ [])
    (hkey : normalizeWeightKey (lastSegOr v.name) = "semibold".data)
    (hnum : toUpperStr v.resolvedType ∈ ["NUMBER".data, "FLOAT".data, "INT".data]) :
    (mapGet (weightIndexStep idx v) "semibold".data).isSome = true := by
  unfold weightIndexStep
  rw [if_neg (by simp [isEmpty_false_of_ne_nil hname])]
  have hlooks : (fontWeightNameTest v.name
      || weightLabelSet.contains (normalizeWeightKey (lastSegOr v.name))) = true := by
    rw [hkey]
    have hc : weightLabelSet.contains "semibold".data = true := by decide
    rw [hc, Bool.or_true]
  have hisnum : (["NUMBER".data, "FLOAT".data, "INT".data].contains
      (toUpperStr v.resolvedType)) = true := by
    exact List.elem_iff.mpr hnum
  rw [if_pos (by rw [hlooks, hisnum]; rfl)]
  rw [hkey]
  rw [if_neg (by decide : ¬("semibold".data = "regular".data))]
  rw [mapGet_mapSet_self]
  rfl

/-- With no bound variable and the literal string label "SemiBold", the
font-weight value is the index hit when present and the numeric fallback
600 otherwise. -/
theorem textFontWeightVal_semibold (idToName weightVars : List (Str × Str)) (s : TextStyle)
    (hbv : (bvOf s).fontWeight = none)
    (hsf : s.fontWeight = some (.str "SemiBold".data)) :
    textFontWeightVal idToName weightVars s =
      (match mapGet weightVars "semibold".data with
       | some tokenVar => some ("var(".data ++ tokenVar ++ ")".data)
       | none => some "600".data) := by
  have hkey : normalizeWeightKey "SemiBold".data = "semibold".data := by decide
  have hwnn : weightNameToNumber "SemiBold".data = some 600 := by decide
  have h600 : natToStr 600 = "600".data := by decide
  unfold textFontWeightVal weightLabelOf
  rw [hbv, hsf]
  simp only [hkey]
  cases hit : mapGet weightVars "semibold".data with
  | some tv => simp
  | none => simp [hwnn, h600]

/-- A declaration built from the font-weight value is in the style's
declaration list. -/
theorem fontWeight_mem_decls (idToName weightVars familyToVar : List (Str × Str))
    (s : TextStyle) (val : Str)
    (hval : textFontWeightVal idToName weightVars s = some val) :
    ("  font-weight: ".data ++ val ++ ";".data)
      ∈ textStyleDecls idToName weightVars familyToVar s := by
  unfold textStyleDecls
  rw [hval]
  simp [optToList]

/-- Claim C3 (amended): a text style whose fontWeight is the string
"SemiBold" with no bound variable emits the literal declaration
font-weight: 600 when the weight index has no "semibold" key; and whenever
the variable set contains a numeric-typed variable whose last path segment
normalizes to "semibold" (for example one named font-weight/semibold), the
emitted class instead contains a var reference to the indexed weight
variable's derived custom-property name.  (A variable whose last segment is
literally "font-weight-semibold" normalizes to "fontweightsemibold" and
does not match; see the counterexample.) -/
theorem c3_semiboldWeight :
    (∀ (idToName weightVars familyToVar : List (Str × Str)) (s : TextStyle),
      (bvOf s).fontWeight = none →
      s.fontWeight = some (.str "SemiBold".data) →
      mapGet weightVars "semibold".data = none →
      "  font-weight: 600;".data ∈ textStyleDecls idToName weightVars familyToVar s)
    ∧ (∀ (idToName familyToVar : List (Str × Str)) (vars : List Variable)
        (v : Variable) (s : TextStyle),
      v ∈ vars → v.name ≠ [] →
      normalizeWeightKey (lastSegOr v.name) = "semibold".data →
      toUpperStr v.resolvedType ∈ ["NUMBER".data, "FLOAT".data, "INT".data] →
      (bvOf s).fontWeight = none →
      s.fontWeight = some (.str "SemiBold".data) →
      ∃ tokenVar, mapGet (buildWeightVarIndex vars) "semibold".data = some tokenVar
        ∧ ("  font-weight: var(".data ++ tokenVar ++ ");".data)
            ∈ textStyleDecls idToName (buildWeightVarIndex vars) familyToVar s) := by
  constructor
  · intro idToName weightVars familyToVar s hbv hsf hmiss
    have hval : textFontWeightVal idToName weightVars s = some "600".data := by
      rw [textFontWeightVal_semibold idToName weightVars s hbv hsf, hmiss]
    have := fontWeight_mem_decls idToName weightVars familyToVar s "600".data hval
    have heq : "  font-weight: ".data ++ "600".data ++ ";".data
        = "  font-weight: 600;".data := by decide
    rwa [heq] at this
  · intro idToName familyToVar vars v s hv hname hkey hnum hbv hsf
    obtain ⟨l1, l2, rfl⟩ := List.append_of_mem hv
    have hmid : (mapGet (weightIndexStep (List.foldl weightIndexStep [] l1) v)
        "semibold".data).isSome = true :=
      weightIndexStep_sets_semibold _ v hname hkey hnum
    have hfin : (mapGet (buildWeightVarIndex (l1 ++ v :: l2)) "semibold".data).isSome = true := by
      unfold buildWeightVarIndex
      rw [List.foldl_append, List.foldl_cons]
      exact foldl_weightIndexStep_isSome l2 _ _ hmid
    obtain ⟨tv, htv⟩ := Option.isSome_iff_exists.mp hfin
    refine ⟨tv, htv, ?_⟩
    have hval : textFontWeightVal idToName (buildWeightVarIndex (l1 ++ v :: l2)) s
        = some ("var(".data ++ tv ++ ")".data) := by
      rw [textFontWeightVal_semibold _ _ s hbv hsf, htv]
    have hmem := fontWeight_mem_decls idToName _ familyToVar s _ hval
    have heq : "  font-weight: ".data ++ ("var(".data ++ tv ++ ")".data) ++ ";".data
        = "  font-weight: var(".data ++ tv ++ ");".data := by
      simp
    rwa [heq] at hmem

/-- Witness for claim C3 at concrete inputs. -/
theorem c3_semiboldWeight_witness :
    "  font-weight: 600;".data ∈ textStyleDecls [] (buildWeightVarIndex []) [] c3Style
    ∧ ∃ tokenVar,
        mapGet (buildWeightVarIndex [c3GoodVar]) "semibold".data = some tokenVar
        ∧ ("  font-weight: var(".data ++ tokenVar ++ ");".data)
            ∈ textStyleDecls [] (buildWeightVarIndex [c3GoodVar]) [] c3Style :=
  ⟨c3_semiboldWeight.1 [] (buildWeightVarIndex []) [] c3Style rfl rfl (by decide),
   c3_semiboldWeight.2 [] [] [c3GoodVar] c3GoodVar c3Style (by decide) (by decide)
     (by decide) (by decide) rfl rfl⟩

/-- Counterexample for claim C3 as stated: a numeric variable whose last
path segment is literally "font-weight-semibold" is present, yet the
emitted class still contains the literal font-weight: 600 declaration and
no var reference, because the variable is indexed under the key
"fontweightsemibold", not "semibold". -/
theorem c3_literalSegmentMisses :
    lastSegOr c3SemiboldVar.name = "font-weight-semibold".data
    ∧ toUpperStr c3SemiboldVar.resolvedType = "NUMBER".data
    ∧ c3SemiboldVar ∈ c3Payload.variables
    ∧ c3Style.fontWeight = some (.str "SemiBold".data)
    ∧ normalizeWeightKey (lastSegOr c3SemiboldVar.name) = "fontweightsemibold".data
    ∧ textStyleDecls (idToNameOf c3Payload.variables)
        (buildWeightVarIndex c3Payload.variables)
        (familyFreqFallback c3Payload.textStyles (buildFamilyToVarMap c3Payload)) c3Style
      = ["  font-weight: 600;".data] := by
  decide

/-- The newline collapse distributes over append through its counter
state. -/
theorem collapseNl3Aux_append :
    ∀ (A B : Str) (k : Nat),
      collapseNl3Aux (A ++ B) k = collapseNl3Aux A k ++ collapseNl3Aux B (nlStateAux A k) := by
  intro A
  induction A with
  | nil => intro B k; rfl
  | cons c rest ih =>
    intro B k
    by_cases hc : c = '\n'
    · by_cases hk : 2 ≤ k
      · simp only [List.cons_append, collapseNl3Aux, nlStateAux, if_pos hc, if_pos hk,
          List.append_eq]
        exact ih B k
      · simp only [List.cons_append, collapseNl3Aux, nlStateAux, if_pos hc, if_neg hk,
          List.append_eq]
        rw [ih B (k + 1)]
    · simp only [List.cons_append, collapseNl3Aux, nlStateAux, if_neg hc, List.append_eq]
      rw [ih B 0]

/-- Newline-free strings are fixed points of the collapse at any state. -/
theorem collapseNl3Aux_no_nl :
    ∀ (A : Str), ('\n' ∉ A) → ∀ (k : Nat), collapseNl3Aux A k = A := by
  intro A
  induction A with
  | nil => intro _ k; rfl
  | cons c rest ih =>
    intro h k
    have hc : ¬ c = '\n' := fun he => h (he ▸ List.mem_cons_self c rest)
    simp only [collapseNl3Aux, if_neg hc]
    rw [ih (fun hm => h (List.mem_cons_of_mem c hm)) 0]

/-- A nonempty newline-free string resets the counter state to zero. -/
theorem nlStateAux_no_nl :
    ∀ (A : Str), A ≠ [] → ('\n' ∉ A) → ∀ (k : Nat), nlStateAux A k = 0 := by
  intro A
  induction A with
  | nil => intro h _ _; exact absurd rfl h
  | cons c rest ih =>
    intro _ h k
    have hc : ¬ c = '\n' := fun he => h (he ▸ List.mem_cons_self c rest)
    simp only [nlStateAux, if_neg hc]
    cases rest with
    | nil => rfl
    | cons d t => exact ih (by simp) (fun hm => h (List.mem_cons_of_mem c hm)) 0

/-- Splitting at newlines peels off a leading newline-free field. -/
theorem splitNl_append :
    ∀ (A B : Str), ('\n' ∉ A) → splitNl (A ++ '\n' :: B) = A :: splitNl B := by
  intro A
  induction A with
  | nil => intro B _; simp [splitNl]
  | cons c rest ih =>
    intro B h
    have hc : ¬ c = '\n' := fun he => h (he ▸ List.mem_cons_self c rest)
    simp only [List.cons_append, splitNl, if_neg hc, List.append_eq]
    rw [ih B (fun hm => h (List.mem_cons_of_mem c hm))]

/-- The newline-counter state distributes over append. -/
theorem nlStateAux_append :
    ∀ (A B : Str) (k : Nat), nlStateAux (A ++ B) k = nlStateAux B (nlStateAux A k) := by
  intro A
  induction A with
  | nil => intro B k; rfl
  | cons c rest ih =>
    intro B k
    by_cases hc : c = '\n'
    · by_cases hk : 2 ≤ k
      · simp only [List.cons_append, nlStateAux, if_pos hc, if_pos hk, List.append_eq]
        exact ih B k
      · simp only [List.cons_append, nlStateAux, if_pos hc, if_neg hk, List.append_eq]
        exact ih B (k + 1)
    · simp only [List.cons_append, nlStateAux, if_neg hc, List.append_eq]
      exact ih B 0

/-- Removing the timestamp line of a generated nonempty document leaves a
value that does not depend on the embedded timestamp. -/
theorem stripTimestampLine_appendHeader_eq (t c : Str) (ht : '\n' ∉ t)
    (hc : c.isEmpty = false) :
    stripTimestampLine (appendHeader t c)
      = joinWithNl ("/* Auto-generated design tokens */".data
          :: [] :: splitNl (collapseNl3Aux c 2)) := by
  have hH1nl : '\n' ∉ "/* Auto-generated design tokens */".data := by decide
  have hMnl : '\n' ∉ "/* ".data ++ t ++ " */".data := by
    intro hm
    rcases List.mem_append.mp hm with hm1 | hm2
    · rcases List.mem_append.mp hm1 with hm3 | hm4
      · exact absurd hm3 (by decide)
      · exact ht hm4
    · exact absurd hm2 (by decide)
  have hMne : "/* ".data ++ t ++ " */".data ≠ [] := by
    intro he
    have := congrArg List.length he
    simp at this
  have key : appendHeader t c
      = "/* Auto-generated design tokens */".data
          ++ ('\n' :: (("/* ".data ++ t ++ " */".data)
              ++ ('\n' :: '\n' :: collapseNl3Aux c 2))) := by
    unfold appendHeader
    rw [if_neg (by simp [hc])]
    have harr : "/* Auto-generated design tokens */\n/* ".data ++ t ++ " */\n\n".data ++ c
        = ("/* Auto-generated design tokens */".data
            ++ '\n' :: ("/* ".data ++ t ++ " */".data)) ++ '\n' :: '\n' :: c := by
      simp
    rw [harr]
    unfold collapseNl3
    rw [collapseNl3Aux_append]
    have e1 : collapseNl3Aux ("/* Auto-generated design tokens */".data
        ++ '\n' :: ("/* ".data ++ t ++ " */".data)) 0
        = "/* Auto-generated design tokens */".data
            ++ '\n' :: ("/* ".data ++ t ++ " */".data) := by
      rw [collapseNl3Aux_append]
      rw [collapseNl3Aux_no_nl _ hH1nl 0]
      rw [nlStateAux_no_nl _ (by decide) hH1nl 0]
      have estep : collapseNl3Aux ('\n' :: ("/* ".data ++ t ++ " */".data)) 0
          = '\n' :: collapseNl3Aux ("/* ".data ++ t ++ " */".data) 1 := by
        simp [collapseNl3Aux]
      rw [estep, collapseNl3Aux_no_nl _ hMnl 1]
    have e2 : nlStateAux ("/* Auto-generated design tokens */".data
        ++ '\n' :: ("/* ".data ++ t ++ " */".data)) 0 = 0 := by
      rw [nlStateAux_append]
      rw [nlStateAux_no_nl _ (by decide) hH1nl 0]
      have estep : nlStateAux ('\n' :: ("/* ".data ++ t ++ " */".data)) 0
          = nlStateAux ("/* ".data ++ t ++ " */".data) 1 := by
        simp [nlStateAux]
      rw [estep, nlStateAux_no_nl _ hMne hMnl 1]
    have e3 : collapseNl3Aux ('\n' :: '\n' :: c) 0 = '\n' :: '\n' :: collapseNl3Aux c 2 := by
      simp [collapseNl3Aux]
    rw [e1, e2, e3]
    simp [List.append_assoc]
  rw [key]
  unfold stripTimestampLine
  have hsp : splitNl ("/* Auto-generated design tokens */".data
      ++ ('\n' :: (("/* ".data ++ t ++ " */".data)
          ++ ('\n' :: '\n' :: collapseNl3Aux c 2))))
      = "/* Auto-generated design tokens */".data
          :: ("/* ".data ++ t ++ " */".data)
          :: [] :: splitNl (collapseNl3Aux c 2) := by
    rw [splitNl_append _ _ hH1nl, splitNl_append _ _ hMnl]
    simp [splitNl]
  rw [hsp]

/-- Removing the timestamp line of a generated document gives the same
value for any two newline-free timestamps. -/
theorem stripTimestampLine_appendHeader_indep (t₁ t₂ c : Str)
    (h₁ : '\n' ∉ t₁) (h₂ : '\n' ∉ t₂) :
    stripTimestampLine (appendHeader t₁ c) = stripTimestampLine (appendHeader t₂ c) := by
  by_cases hc : c.isEmpty = true
  · simp only [appendHeader, if_pos hc]
  · have hc' : c.isEmpty = false := by revert hc; cases c.isEmpty <;> simp
    rw [stripTimestampLine_appendHeader_eq t₁ c h₁ hc',
        stripTimestampLine_appendHeader_eq t₂ c h₂ hc']

/-- Stripping timestamps commutes with a map update. -/
theorem stripDocs_mapSet (acc : List (Str × Str)) (k v : Str) :
    stripDocs (mapSet acc k v) = mapSet (stripDocs acc) k (stripTimestampLine v) := by
  induction acc with
  | nil => rfl
  | cons a rest ih =>
    obtain ⟨k', v'⟩ := a
    by_cases hk : k' = k
    · simp [stripDocs, mapSet, hk]
    · simp only [stripDocs, mapSet, List.map_cons, if_neg hk]
      simpa [stripDocs] using ih

/-- A mode step of the assembler changes the stripped accumulator in a way
independent of the timestamp. -/
theorem genModeStep_strip (p : Payload) (opt : GenerateCSSOptions) (t₁ t₂ : Str)
    (h₁ : '\n' ∉ t₁) (h₂ : '\n' ∉ t₂) (coll : Collection)
    (acc₁ acc₂ : List (Str × Str)) (hacc : stripDocs acc₁ = stripDocs acc₂)
    (mode : VariableMode) :
    stripDocs (genModeStep p opt t₁ coll acc₁ mode)
      = stripDocs (genModeStep p opt t₂ coll acc₂ mode) := by
  unfold genModeStep
  dsimp only
  split_ifs with hm
  · exact hacc
  · rw [stripDocs_mapSet, stripDocs_mapSet, hacc,
        stripTimestampLine_appendHeader_indep t₁ t₂ _ h₁ h₂]

/-- The fold over a collection's modes preserves stripped-accumulator
agreement across timestamps. -/
theorem foldl_genModeStep_strip (p : Payload) (opt : GenerateCSSOptions) (t₁ t₂ : Str)
    (h₁ : '\n' ∉ t₁) (h₂ : '\n' ∉ t₂) (coll : Collection) :
    ∀ (modes : List VariableMode) (acc₁ acc₂ : List (Str × Str)),
      stripDocs acc₁ = stripDocs acc₂ →
      stripDocs (modes.foldl (genModeStep p opt t₁ coll) acc₁)
        = stripDocs (modes.foldl (genModeStep p opt t₂ coll) acc₂) := by
  intro modes
  induction modes with
  | nil => intro acc₁ acc₂ hacc; exact hacc
  | cons m rest ih =>
    intro acc₁ acc₂ hacc
    simp only [List.foldl_cons]
    exact ih _ _ (genModeStep_strip p opt t₁ t₂ h₁ h₂ coll acc₁ acc₂ hacc m)

/-- A collection step of the assembler changes the stripped accumulator in
a way independent of the timestamp. -/
theorem genCollStep_strip (p : Payload) (opt : GenerateCSSOptions) (t₁ t₂ : Str)
    (h₁ : '\n' ∉ t₁) (h₂ : '\n' ∉ t₂)
    (acc₁ acc₂ : List (Str × Str)) (hacc : stripDocs acc₁ = stripDocs acc₂)
    (coll : Collection) :
    stripDocs (genCollStep p opt t₁ acc₁ coll)
      = stripDocs (genCollStep p opt t₂ acc₂ coll) := by
  unfold genCollStep
  dsimp only
  split_ifs with hinc hvars hmodes hcont
  · exact hacc
  · exact hacc
  · exact foldl_genModeStep_strip p opt t₁ t₂ h₁ h₂ coll coll.modes acc₁ acc₂ hacc
  · exact hacc
  · rw [stripDocs_mapSet, stripDocs_mapSet, hacc,
        stripTimestampLine_appendHeader_indep t₁ t₂ _ h₁ h₂]

/-- The fold over the payload's collections preserves stripped-accumulator
agreement across timestamps. -/
theorem foldl_genCollStep_strip (p : Payload) (opt : GenerateCSSOptions) (t₁ t₂ : Str)
    (h₁ : '\n' ∉ t₁) (h₂ : '\n' ∉ t₂) :
    ∀ (colls : List Collection) (acc₁ acc₂ : List (Str × Str)),
      stripDocs acc₁ = stripDocs acc₂ →
      stripDocs (colls.foldl (genCollStep p opt t₁) acc₁)
        = stripDocs (colls.foldl (genCollStep p opt t₂) acc₂) := by
  intro colls
  induction colls with
  | nil => intro acc₁ acc₂ hacc; exact hacc
  | cons cl rest ih =>
    intro acc₁ acc₂ hacc
    simp only [List.foldl_cons]
    exact ih _ _ (genCollStep_strip p opt t₁ t₂ h₁ h₂ acc₁ acc₂ hacc cl)

/-- The optional styles document, timestamp stripped, does not depend on
the timestamp. -/
theorem stylesOf_strip (sp : List Str) (t₁ t₂ : Str) (h₁ : '\n' ∉ t₁) (h₂ : '\n' ∉ t₂) :
    Option.map stripTimestampLine
        (if sp.isEmpty then none else some (appendHeader t₁ (joinWithSep "\n\n".data sp)))
      = Option.map stripTimestampLine
        (if sp.isEmpty then none else some (appendHeader t₂ (joinWithSep "\n\n".data sp))) := by
  split_ifs with hs
  · rfl
  · simp only [Option.map]
    exact congrArg some (stripTimestampLine_appendHeader_indep t₁ t₂ _ h₁ h₂)

/-- The collection documents of a generation, timestamps stripped, do not
depend on the timestamp. -/
theorem generateCSS_collections_strip (p : Payload) (o : GenerateCSSOptions)
    (t₁ t₂ : Str) (h₁ : '\n' ∉ t₁) (h₂ : '\n' ∉ t₂) :
    stripDocs (generateCSS p o t₁).collections
      = stripDocs (generateCSS p o t₂).collections := by
  unfold generateCSS
  dsimp only
  split_ifs with hv
  · exact foldl_genCollStep_strip p (normalizeOptions o) t₁ t₂ h₁ h₂ p.collections [] [] rfl
  · rfl

/-- The styles document of a generation, timestamp stripped, does not
depend on the timestamp. -/
theorem generateCSS_styles_strip (p : Payload) (o : GenerateCSSOptions)
    (t₁ t₂ : Str) (h₁ : '\n' ∉ t₁) (h₂ : '\n' ∉ t₂) :
    Option.map stripTimestampLine (generateCSS p o t₁).styles
      = Option.map stripTimestampLine (generateCSS p o t₂).styles := by
  unfold generateCSS
  dsimp only
  exact stylesOf_strip _ t₁ t₂ h₁ h₂

/-- C5: generation is deterministic given the payload and the options.
Two calls to generateCSS on structurally identical payloads and identical
options differ only in the embedded timestamp: after removing the
timestamp comment line from every document, the document maps are
byte-identical, with the same names, the same bodies and the same
optional styles document. -/
theorem c5_generationDeterministic (p : Payload) (o : GenerateCSSOptions)
    (t₁ t₂ : Str) (h₁ : '\n' ∉ t₁) (h₂ : '\n' ∉ t₂) :
    stripStamps (generateCSS p o t₁) = stripStamps (generateCSS p o t₂) := by
  simp only [stripStamps]
  rw [generateCSS_collections_strip p o t₁ t₂ h₁ h₂,
      generateCSS_styles_strip p o t₁ t₂ h₁ h₂]

set_option maxRecDepth 80000 in
/-- Concrete instantiation of the determinism theorem at a fully populated
payload and two distinct timestamps. -/
theorem c5_generationDeterministic_witness :
    ('\n' ∉ "A".data) ∧ ('\n' ∉ "BB".data)
    ∧ stripStamps (generateCSS c1Payload allOnOpts "A".data)
        = stripStamps (generateCSS c1Payload allOnOpts "BB".data) :=
  ⟨by decide, by decide,
    c5_generationDeterministic c1Payload allOnOpts "A".data "BB".data
      (by decide) (by decide)⟩

/-- Setting one key leaves every other key's binding unchanged. -/
theorem mapGet_mapSet_ne {α : Type} (m : List (Str × α)) (k k' : Str) (x : α)
    (h : k' ≠ k) : mapGet (mapSet m k x) k' = mapGet m k' := by
  have hk : ¬ k = k' := fun he => h he.symm
  induction m with
  | nil =>
    simp only [mapSet, mapGet]
    rw [if_neg hk]
  | cons a rest ih =>
    obtain ⟨b, c⟩ := a
    by_cases hb : b = k
    · subst hb
      simp only [mapSet, if_pos rfl, mapGet]
      rw [if_neg hk, if_neg hk]
    · simp only [mapSet, if_neg hb, mapGet]
      by_cases hb' : b = k'
      · simp [hb']
      · simp [hb', ih]

/-- Distinct mode names give distinct per-mode document keys. -/
theorem keyNe (s : Str) {a b : Str} (h : a ≠ b) : s ++ '-' :: a ≠ s ++ '-' :: b := by
  intro he
  exact h (by simpa using List.append_cancel_left he)

/-- Accumulating variables that all carry the same collection key extends
the single group in order. -/
theorem byCollection_aux (k : Str) :
    ∀ (vars : List Variable) (acc : List Variable),
      (∀ v ∈ vars, collKeyOf v = k) →
      vars.foldl (fun g v => pushGroup g (collKeyOf v) v) [(k, acc)] = [(k, acc ++ vars)] := by
  intro vars
  induction vars with
  | nil => intro acc _; simp
  | cons v rest ih =>
    intro acc h
    simp only [List.foldl_cons]
    have hv : collKeyOf v = k := h v (List.mem_cons_self v rest)
    have hpg : pushGroup [(k, acc)] (collKeyOf v) v = [(k, acc ++ [v])] := by
      simp [pushGroup, hv]
    rw [hpg, ih (acc ++ [v]) (fun w hw => h w (List.mem_cons_of_mem v hw))]
    simp

/-- When every variable carries the same collection key, grouping yields a
single group holding the whole list in order. -/
theorem byCollection_const (k : Str) (vars : List Variable) (hne : vars ≠ [])
    (h : ∀ v ∈ vars, collKeyOf v = k) :
    byCollectionOf vars = [(k, vars)] := by
  cases vars with
  | nil => exact absurd rfl hne
  | cons v rest =>
    unfold byCollectionOf
    simp only [List.foldl_cons]
    have hv : collKeyOf v = k := h v (List.mem_cons_self v rest)
    have hpg : pushGroup [] (collKeyOf v) v = [(k, [v])] := by simp [pushGroup, hv]
    rw [hpg, byCollection_aux k rest [v] (fun w hw => h w (List.mem_cons_of_mem v hw))]
    simp

/-- With a truthy target mode id, the root-mode selection is exactly the
mode-or-first-defined choice described by the spec. -/
theorem rootModeSel_eq_chooseValSpec (m : VariableMode) (hmid : m.modeId ≠ [])
    (v : Variable) : rootModeSel (some m.modeId) v = chooseValSpec v m := by
  have hf : m.modeId.isEmpty = false := by
    cases h : m.modeId
    · exact absurd h hmid
    · rfl
  simp only [rootModeSel, chooseValSpec]
  rw [hf]
  simp

/-- The mode step, written through the filed content. -/
theorem genModeStep_eq (p : Payload) (opt : GenerateCSSOptions) (now : Str)
    (coll : Collection) (acc : List (Str × Str)) (md : VariableMode) :
    genModeStep p opt now coll acc md
      = if (modeContentOf p opt coll md).isEmpty then acc
        else mapSet acc (coll.name ++ '-' :: md.name)
              (appendHeader now (modeContentOf p opt coll md)) := rfl

/-- With a truthy target mode id, the single-mode per-variable line is the
spec-side mode-or-fallback rendering. -/
theorem rootLineOf_eq (opt : GenerateCSSOptions) (vById : List (Str × Variable))
    (i2n : List (Str × Str)) (dU : Str) (m : VariableMode) (hmid : m.modeId ≠ [])
    (v : Variable) :
    rootLineOf opt vById i2n dU (some m.modeId) v
      = (chooseValSpec v m).map (fun mkv => varLine opt vById i2n dU mkv.1 mkv.2 v) := by
  unfold rootLineOf
  rw [rootModeSel_eq_chooseValSpec m hmid v]
  cases chooseValSpec v m with
  | none => rfl
  | some mkv => obtain ⟨mk, mv⟩ := mkv; rfl

/-- The single-mode line selector agrees with the spec-side rendering over
a whole variable list. -/
theorem filterMap_rootLine_eq (optX : GenerateCSSOptions) (vById : List (Str × Variable))
    (i2n : List (Str × Str)) (dU : Str) (m : VariableMode) (hmid : m.modeId ≠ [])
    (vs : List Variable) :
    List.filterMap (rootLineOf optX vById i2n dU (some m.modeId)) vs
      = List.filterMap (fun v => (chooseValSpec v m).map
          (fun mkv => varLine optX vById i2n dU mkv.1 mkv.2 v)) vs :=
  List.filterMap_congr (fun v _ => rootLineOf_eq optX vById i2n dU m hmid v)

/-- Under the amended claim's side conditions, the content the assembler
files for one mode equals the spec-side per-mode body. -/
theorem modeContentOf_eq_spec (p : Payload) (o : GenerateCSSOptions) (coll : Collection)
    (m : VariableMode) (hid : coll.id ≠ [])
    (hvars : ∀ v ∈ p.variables, v.variableCollectionId = some coll.id)
    (hmid : m.modeId ≠ []) :
    modeContentOf p (normalizeOptions o) coll m = modeDocBodySpec p o coll m := by
  have hidf : coll.id.isEmpty = false := by
    cases h : coll.id
    · exact absurd h hid
    · rfl
  have hkeys : ∀ v ∈ p.variables, collKeyOf v = coll.id := by
    intro v hv
    simp [collKeyOf, hvars v hv, hidf]
  by_cases hpe : p.variables = []
  · simp [modeContentOf, emitVariablesSection, modeDocBodySpec, hpe]
  · have hvef : p.variables.isEmpty = false := by
      cases h : p.variables
      · exact absurd h hpe
      · rfl
    have hby : byCollectionOf p.variables = [(coll.id, p.variables)] :=
      byCollection_const coll.id p.variables hpe hkeys
    have hfil : p.variables.filter (fun v => v.variableCollectionId == some coll.id)
        = p.variables :=
      List.filter_eq_self.mpr (fun v hv => by rw [hvars v hv]; simp)
    have hall : allowedSetOf (some [coll.id]) = some [coll.id] := by
      simp [allowedSetOf]
    unfold modeContentOf emitVariablesSection modeDocBodySpec singleModeSection
    dsimp only
    rw [hby, hfil]
    simp only [List.foldl_cons, List.foldl_nil, hvef, hall, normalizeOptions,
      collByIdOf, mapSet, mapGet, List.contains_cons, List.contains_nil,
      List.isEmpty_cons, List.isEmpty_nil, Bool.false_eq_true, Bool.or_false,
      beq_self_eq_true, Bool.true_or, Bool.true_and, Bool.and_true, if_true,
      List.head?_cons, Option.map_some, Option.getD_some, List.length_cons,
      List.length_nil, Option.getD_none]
    simp only [ite_self, Bool.true_eq_false, false_or, if_false, if_true,
      Option.map_some', Option.getD_some, List.length_cons, List.length_nil,
      Nat.zero_add, le_refl, List.head?_cons]
    rw [filterMap_rootLine_eq _ _ _ _ m hmid]
    split_ifs <;> simp_all [joinWithNl, joinWithSep]

/-- A mode step never touches another mode's document key. -/
theorem genModeStep_other (p : Payload) (opt : GenerateCSSOptions) (now : Str)
    (coll : Collection) (acc : List (Str × Str)) (md : VariableMode) (k : Str)
    (h : coll.name ++ '-' :: md.name ≠ k) :
    mapGet (genModeStep p opt now coll acc md) k = mapGet acc k := by
  rw [genModeStep_eq]
  split_ifs with hm
  · rfl
  · exact mapGet_mapSet_ne acc _ k _ (Ne.symm h)

/-- The fold over modes never touches a key owned by none of them. -/
theorem foldl_genModeStep_other (p : Payload) (opt : GenerateCSSOptions) (now : Str)
    (coll : Collection) :
    ∀ (modes : List VariableMode) (acc : List (Str × Str)) (k : Str),
      (∀ md ∈ modes, coll.name ++ '-' :: md.name ≠ k) →
      mapGet (modes.foldl (genModeStep p opt now coll) acc) k = mapGet acc k := by
  intro modes
  induction modes with
  | nil => intro acc k _; rfl
  | cons md rest ih =>
    intro acc k h
    simp only [List.foldl_cons]
    rw [ih _ k (fun md' hmd' => h md' (List.mem_cons_of_mem md hmd'))]
    exact genModeStep_other p opt now coll acc md k (h md (List.mem_cons_self md rest))

/-- Looking a mode's document key up after the fold over modes yields that
mode's own filed content. -/
theorem mapGet_foldl_genModeStep (p : Payload) (opt : GenerateCSSOptions) (now : Str)
    (coll : Collection) :
    ∀ (modes : List VariableMode) (acc : List (Str × Str)) (m : VariableMode),
      m ∈ modes → (modes.map (fun md => md.name)).Nodup →
      mapGet acc (coll.name ++ '-' :: m.name) = none →
      mapGet (modes.foldl (genModeStep p opt now coll) acc) (coll.name ++ '-' :: m.name)
        = if (modeContentOf p opt coll m).isEmpty then none
          else some (appendHeader now (modeContentOf p opt coll m)) := by
  intro modes
  induction modes with
  | nil => intro acc m hm _ _; exact absurd hm (List.not_mem_nil m)
  | cons md rest ih =>
    intro acc m hm hnd hacc
    simp only [List.map_cons, List.nodup_cons] at hnd
    obtain ⟨hnotin, hnd'⟩ := hnd
    simp only [List.foldl_cons]
    rcases List.mem_cons.mp hm with rfl | hmem
    · have hothers : ∀ md' ∈ rest,
          coll.name ++ '-' :: md'.name ≠ coll.name ++ '-' :: m.name := by
        intro md' hmd'
        exact keyNe coll.name
          (fun he2 => hnotin (List.mem_map.mpr ⟨md', hmd', he2⟩))
      rw [foldl_genModeStep_other p opt now coll rest _ _ hothers]
      rw [genModeStep_eq]
      split_ifs with hc
      · exact hacc
      · exact mapGet_mapSet_self acc _ _
    · have hne : md.name ≠ m.name := by
        intro he
        exact hnotin (he ▸ List.mem_map.mpr ⟨m, hmem, rfl⟩)
      have hacc' : mapGet (genModeStep p opt now coll acc md)
          (coll.name ++ '-' :: m.name) = none := by
        rw [genModeStep_other p opt now coll acc md _ (keyNe coll.name hne)]
        exact hacc
      exact ih _ m hmem hnd' hacc'

/-- Claim C6 (amended): for a payload holding one collection (with a
truthy id) whose variables all belong to it and no collection filter, a
collection with two or more distinctly named modes yields, for each mode
with a truthy mode id, a document keyed CollectionName-ModeName whose body
is the mode's own section built from each variable's value for that mode
when defined and otherwise from the variable's first defined value from
any other mode (so cross-mode fallback, not isolation); a collection with
at most one mode yields at most one document, keyed CollectionName. -/
theorem c6_modeDocuments (p : Payload) (o : GenerateCSSOptions) (now : Str)
    (coll : Collection)
    (hp : p.collections = [coll])
    (hsel : o.selectedCollectionIds = none)
    (hid : coll.id ≠ [])
    (hvars : ∀ v ∈ p.variables, v.variableCollectionId = some coll.id) :
    (∀ m ∈ coll.modes, 2 ≤ coll.modes.length →
      (coll.modes.map (fun md => md.name)).Nodup → m.modeId ≠ [] →
      mapGet (generateCSS p o now).collections (coll.name ++ '-' :: m.name)
        = if (modeDocBodySpec p o coll m).isEmpty then none
          else some (appendHeader now (modeDocBodySpec p o coll m)))
    ∧ (coll.modes.length ≤ 1 →
        (generateCSS p o now).collections = []
        ∨ ∃ d, (generateCSS p o now).collections = [(coll.name, d)]) := by
  have hcf : (generateCSS p o now).collections
      = genCollStep p (normalizeOptions o) now [] coll := by
    unfold generateCSS
    dsimp only
    rw [hp]
    have hcond : (normalizeOptions o).includeVariables = true
        ∧ ([coll] : List Collection).isEmpty = false := ⟨rfl, rfl⟩
    rw [if_pos hcond]
    simp
  have hselN : (normalizeOptions o).selectedCollectionIds = none := hsel
  by_cases hpe : p.variables = []
  · constructor
    · intro m _ _ _ _
      have h0 : genCollStep p (normalizeOptions o) now [] coll = [] := by
        unfold genCollStep
        dsimp only
        rw [hselN]
        simp [allowedSetOf, hpe]
      rw [hcf, h0]
      simp [modeDocBodySpec, hpe, mapGet]
    · intro _
      left
      rw [hcf]
      unfold genCollStep
      dsimp only
      rw [hselN]
      simp [allowedSetOf, hpe]
  · have hvef : p.variables.isEmpty = false := by
      cases h : p.variables
      · exact absurd h hpe
      · rfl
    have hfil : p.variables.filter (fun v => v.variableCollectionId == some coll.id)
        = p.variables :=
      List.filter_eq_self.mpr (fun v hv => by rw [hvars v hv]; simp)
    constructor
    · intro m hm hlen hnd hmid
      have hgt : 1 < coll.modes.length := by omega
      have hmulti : genCollStep p (normalizeOptions o) now [] coll
          = coll.modes.foldl (genModeStep p (normalizeOptions o) now coll) [] := by
        unfold genCollStep
        dsimp only
        rw [hselN, hfil]
        simp [allowedSetOf, hvef, hgt]
      rw [hcf, hmulti,
          mapGet_foldl_genModeStep p (normalizeOptions o) now coll coll.modes [] m hm hnd rfl,
          modeContentOf_eq_spec p o coll m hid hvars hmid]
    · intro hle
      have hngt : ¬ 1 < coll.modes.length := by omega
      have hsingle : genCollStep p (normalizeOptions o) now [] coll
          = (if (emitVariablesSection { p with collections := [coll] }
                  { normalizeOptions o with
                    selectedCollectionIds := some [coll.id] }).isEmpty = true then []
             else mapSet [] coll.name (appendHeader now
                    (emitVariablesSection { p with collections := [coll] }
                      { normalizeOptions o with
                        selectedCollectionIds := some [coll.id] }))) := by
        unfold genCollStep
        dsimp only
        rw [hselN, hfil]
        simp [allowedSetOf, hvef, hngt]
      rw [hcf, hsingle]
      split_ifs with hc
      · left; rfl
      · right
        exact ⟨_, rfl⟩

set_option maxRecDepth 40000 in
/-- Concrete instantiation of the amended mode-document theorem: the
two-mode Theme collection, looked up at its Light mode document. -/
theorem c6_modeDocuments_witness :
    c6Payload.collections = [c6Coll]
    ∧ allOnOpts.selectedCollectionIds = none
    ∧ c6Coll.id ≠ []
    ∧ (∀ v ∈ c6Payload.variables, v.variableCollectionId = some c6Coll.id)
    ∧ (⟨"m1".data, "Light".data⟩ : VariableMode) ∈ c6Coll.modes
    ∧ 2 ≤ c6Coll.modes.length
    ∧ (c6Coll.modes.map (fun md => md.name)).Nodup
    ∧ ("m1".data : Str) ≠ []
    ∧ mapGet (generateCSS c6Payload allOnOpts "TS".data).collections
        (c6Coll.name ++ '-' :: "Light".data)
      = if (modeDocBodySpec c6Payload allOnOpts c6Coll ⟨"m1".data, "Light".data⟩).isEmpty
        then none
        else some (appendHeader "TS".data
              (modeDocBodySpec c6Payload allOnOpts c6Coll ⟨"m1".data, "Light".data⟩)) :=
  ⟨by decide, by decide, by decide, by decide, by decide, by decide, by decide, by decide,
    (c6_modeDocuments c6Payload allOnOpts "TS".data c6Coll (by decide) (by decide)
        (by decide) (by decide)).1 ⟨"m1".data, "Light".data⟩ (by decide) (by decide)
        (by decide) (by decide)⟩

set_option maxRecDepth 40000 in
/-- Counterexample to claim C6 as stated: the variable defines no value
for the Light mode, yet the Theme-Light document carries the declaration
rendered from the Dark mode's value -- a value from another mode appears,
so mode documents are not isolated. -/
theorem c6_crossModeLeakage :
    mapGet c6Var.valuesByMode "m1".data = none
    ∧ mapGet (generateCSS c6Payload allOnOpts "TS".data).collections "Theme-Light".data
      = some ("/* Auto-generated design tokens */\n/* TS */\n\n/* Theme */\n:root \x7b\n  --color-bg: 10px;\n\x7d\n".data) := by
  decide
